import Mathlib

/-!
Verification development for the ADMX/ADML JSON generation pipeline
(Generate-AdmxJson.ps1) of the json-gpo repository.

The script is PowerShell; this file gives a shallow embedding of its pure
data transformation: string-reference resolution (Resolve-String),
namespace-prefix resolution (Resolve-PrefixedName), registry extraction
(Process-RegistryInfo), supported-on lookup (Process-SupportedOn), the
per-file collection loop of Step 1, the two hierarchy passes of Step 2,
and the per-language output assembly of Step 3.

Modelling conventions:
- PowerShell hashtables become association lists (List (String × V)) with
  lookup-first semantics; assignment replaces the entry in place
  (`setL`), property mutation modifies the entry in place (`modL`).
- XML attribute access that yields $null is modelled as Option, or as the
  empty string where the script only ever tests truthiness (PowerShell
  treats $null and "" alike in a Boolean context).
- A [string]-typed PowerShell parameter can never hold $null: binding
  converts $null to "".  Resolve-String's DefaultValue parameter is
  therefore modelled as an Option that is coerced to a String ("" when
  absent) on entry, exactly as PowerShell binds it.
- The PowerShell operators -match, -like and -replace are
  case-insensitive; the embedding
  models the case-sensitive restriction of each pattern, which every
  input considered here respects.
- Write-Warning calls during Step 1 are modelled as entries appended to a
  warnings list; Write-Verbose and Write-Host calls are not observable
  output and are not modelled.
-/

namespace AdmxGen

/-- Lookup in an association list (hashtable access `$m[$k]`): first
entry whose key equals `k`. -/
def lookupL {V : Type} : List (String × V) → String → Option V
  | [], _ => none
  | kv :: rest, k => if kv.1 = k then some kv.2 else lookupL rest k

/-- Hashtable `ContainsKey`. -/
def containsKey {V : Type} (m : List (String × V)) (k : String) : Bool :=
  (lookupL m k).isSome

/-- Hashtable assignment `$m[$k] = v`: replace the entry in place if the
key is present, otherwise append a new entry. -/
def setL {V : Type} : List (String × V) → String → V → List (String × V)
  | [], k, v => [(k, v)]
  | kv :: rest, k, v => if kv.1 = k then (k, v) :: rest else kv :: setL rest k v

/-- In-place mutation of the object stored under `k`
(`$m[$k].Prop = ...` or `$m[$k].List.Add(...)`). -/
def modL {V : Type} : List (String × V) → String → (V → V) → List (String × V)
  | [], _, _ => []
  | kv :: rest, k, f => if kv.1 = k then (kv.1, f kv.2) :: rest else kv :: modL rest k f

/-- .NET String.IsNullOrWhiteSpace ($null is modelled as ""). -/
def isBlank (s : String) : Bool := s.data.all (fun c => c.isWhitespace)

/-- Matcher for the anchored regex of Resolve-String,
namely backslash-dollar paren string dot (.+) paren: returns the capture
group when the whole string is a string-reference token.  The capture
`.+` must be non-empty and cannot contain a newline. -/
def matchStringTokenAux : List Char → Option (List Char)
  | '$' :: '(' :: 's' :: 't' :: 'r' :: 'i' :: 'n' :: 'g' :: '.' :: rest =>
    match rest.reverse with
    | ')' :: revMid =>
      if revMid = [] then none
      else if '\n' ∈ revMid then none
      else some revMid.reverse
    | _ => none
  | _ => none

/-- String-level wrapper of `matchStringTokenAux`. -/
def matchStringToken (s : String) : Option String :=
  (matchStringTokenAux s.data).map (fun cs => String.mk cs)

/-- Matcher for the regex of the presentation reference,
the anchored pattern over presentation tokens, returning the capture. -/
def matchPresTokenAux : List Char → Option (List Char)
  | '$' :: '(' :: 'p' :: 'r' :: 'e' :: 's' :: 'e' :: 'n' :: 't' :: 'a' :: 't' :: 'i' :: 'o' :: 'n' :: '.' :: rest =>
    match rest.reverse with
    | ')' :: revMid =>
      if revMid = [] then none
      else if '\n' ∈ revMid then none
      else some revMid.reverse
    | _ => none
  | _ => none

/-- String-level wrapper of `matchPresTokenAux`. -/
def matchPresToken (s : String) : Option String :=
  (matchPresTokenAux s.data).map (fun cs => String.mk cs)

/-- The PowerShell test `$s -like "windows:SUPPORTED_*"`. -/
def likeWindowsSupported (s : String) : Bool :=
  List.isPrefixOf ("windows:SUPPORTED_".data) s.data

/-- The PowerShell operation `$s -replace 'windows:', ''`: delete every
(non-overlapping, left-to-right) occurrence of the pattern. -/
def removeWindowsAux : List Char → List Char
  | 'w' :: 'i' :: 'n' :: 'd' :: 'o' :: 'w' :: 's' :: ':' :: rest => removeWindowsAux rest
  | c :: rest => c :: removeWindowsAux rest
  | [] => []

/-- String-level wrapper of `removeWindowsAux`. -/
def removeWindows (s : String) : String := String.mk (removeWindowsAux s.data)

/-- Resolve-String.  `StringTable` is the merged ADML string table,
`DefaultValue` the optional fallback.  PowerShell binds the
[string]-typed DefaultValue parameter by converting $null to "", so the
guard `$null -ne $DefaultValue` inside the function is always true and
the branch returning the raw token on a miss is unreachable. -/
def ResolveString (RawString : String) (StringTable : List (String × String))
    (DefaultValue : Option String) : String :=
  let dv : String := match DefaultValue with
    | some s => s
    | none => ""
  match matchStringToken RawString with
  | some stringId =>
    match lookupL StringTable stringId with
    | some v => v
    | none => dv
  | none =>
    if likeWindowsSupported RawString then
      match lookupL StringTable (removeWindows RawString) with
      | some v => v
      | none => RawString
    else RawString

/-- Matcher for the regex of Resolve-PrefixedName, an alphanumeric
prefix, a colon, then a non-empty remainder: scan for the first colon,
requiring every character before it to be alphanumeric. -/
def splitPrefixedAux (acc : List Char) : List Char → Option (List Char × List Char)
  | [] => none
  | ':' :: rest =>
    if acc = [] then none
    else if rest = [] then none
    else if '\n' ∈ rest then none
    else some (acc.reverse, rest)
  | c :: rest => if c.isAlphanum then splitPrefixedAux (c :: acc) rest else none

/-- Resolve-PrefixedName: resolve a possibly prefixed reference to a
namespace-qualified unique id.  Returns the resolved string together
with the Write-Warning output it produced. -/
def ResolvePrefixedName (PrefixedName : String)
    (NamespacePrefixMap : List (String × String))
    (DefaultNamespaceUri : String) : String × List String :=
  match splitPrefixedAux [] PrefixedName.data with
  | some (pfx, localPart) =>
    match lookupL NamespacePrefixMap (String.mk pfx) with
    | some namespaceUri => (namespaceUri ++ "::" ++ String.mk localPart, [])
    | none =>
      (PrefixedName,
        ["Namespace prefix " ++ String.mk pfx ++ " in " ++ PrefixedName ++
          " not found in prefix map."])
  | none => (DefaultNamespaceUri ++ "::" ++ PrefixedName, [])

/-- One item child of an enum element node: a displayName token and the
optional value.decimal.value structure (the [int] cast the script applies
is modelled by storing the parsed integer). -/
structure EnumItemNode where
  displayName : String
  decimalValue : Option Int
deriving DecidableEq

/-- One child of a policy's elements node, as read from the ADMX XML.
Attributes read through HasAttribute are Options; attributes read
directly are Strings with "" for $null. -/
structure ElementNode where
  localName : String
  id : String
  valueName : String
  items : List EnumItemNode
  minValue : Option String
  maxValue : Option String
  maxLength : Option String
  required : Option Bool
deriving DecidableEq

/-- The raw policy XML node, carrying both the policy attributes used at
collection time and the registry-bearing parts used by
Process-RegistryInfo.  `enabledValue`/`disabledValue`: outer Option is
presence of the node, inner Option is presence of its decimal.value
structure.  `supportedOn` is the Option-al ref of the supportedOn child
node.  `elements` is the Option-al children list of the elements node. -/
structure PolicyNodeSrc where
  name : String
  pclass : String
  displayName : String
  explainText : String
  supportedOn : Option String
  parentCategoryRef : Option String
  presentationTok : String
  key : String
  valueName : String
  enabledValue : Option (Option String)
  disabledValue : Option (Option String)
  elements : Option (List ElementNode)
deriving DecidableEq

/-- A category XML node. -/
structure CategoryNode where
  name : String
  displayName : String
  parentRef : Option String
deriving DecidableEq

/-- A supportedOn definition XML node. -/
structure SuppDefNode where
  name : String
  displayName : String
deriving DecidableEq

/-- A presentation XML node collected from an ADMX file (stored raw by
the script and never read again; only the id matters here). -/
structure PresentationNodeSrc where
  id : String
deriving DecidableEq

/-- A parsed source ADMX file: full path, file name, target namespace
(prefix and URI) when declared, the using imports, and the four
definition sections. -/
structure AdmxFileSrc where
  path : String
  fileName : String
  target : Option (String × String)
  usings : List (String × String)
  suppDefs : List SuppDefNode
  categories : List CategoryNode
  policies : List PolicyNodeSrc
  presentations : List PresentationNodeSrc
deriving DecidableEq

/-- The value stored in $admxSupportedOnDefinitions. -/
structure SupportedOnDefinition where
  Name : String
  RawDisplayName : String
deriving DecidableEq

/-- The value stored in $allCategories. -/
structure AdmxCategory where
  AdmxFile : String
  UniqueId : String
  Name : String
  NamespaceUri : String
  RawDisplayName : String
  ParentRefUniqueId : Option String
  TempNode : CategoryNode
  ChildrenIds : List String
  PolicyIds : List String
  ParentId : Option String
deriving DecidableEq

/-- The value stored in $allPolicies. -/
structure AdmxPolicy where
  AdmxFile : String
  UniqueId : String
  Name : String
  NamespaceUri : String
  Class : String
  RawDisplayName : String
  RawExplainText : String
  RawSupportedOn : String
  PresentationRefRaw : String
  ParentCategoryRefRaw : Option String
  TempNode : PolicyNodeSrc
  CategoryId : Option String
deriving DecidableEq

/-- A registry option entry value: enum items carry [int]-cast numbers,
the top-level enabled/disabled pair carries the raw attribute strings. -/
inductive JVal where
  | str (s : String)
  | int (n : Int)
deriving DecidableEq

/-- An entry of an options list (value plus resolved display text). -/
structure RegOptionEntry where
  value : JVal
  display : String
deriving DecidableEq

/-- A RegistryElement produced for one child of the elements node. -/
structure RegistryElement where
  id : String
  valueName : String
  type : String
  options : Option (List RegOptionEntry)
  minValue : Option String
  maxValue : Option String
  maxLength : Option String
  required : Bool
deriving DecidableEq

/-- The registry information record produced by Process-RegistryInfo. -/
structure RegInfo where
  key : String
  valueName : Option String
  type : String
  enabledValue : Option String
  disabledValue : Option String
  options : Option (List RegOptionEntry)
  elements : Option (List RegistryElement)
deriving DecidableEq

/-- Warning text for an unsupported element kind (Write-Warning in the
default switch branch of Process-RegistryInfo). -/
def unsupportedElementWarning (localName polName : String) : String :=
  "Unsupported element type " ++ localName ++ " found in policy " ++ polName ++ "."

/-- Process one child of the elements node: build its RegistryElement
and the Write-Warning output of its switch branch. -/
def processRegElement (polName : String) (StringTable : List (String × String))
    (element : ElementNode) : RegistryElement × List String :=
  let elemInfo : RegistryElement :=
    { id := element.id
      valueName := element.valueName
      type := "Unknown"
      options := none
      minValue := element.minValue
      maxValue := element.maxValue
      maxLength := element.maxLength
      required := match element.required with
        | some b => b
        | none => false }
  if element.localName = "enum" then
    let results := element.items.map (fun item =>
      let display := ResolveString item.displayName StringTable (some item.displayName)
      match item.decimalValue with
      | some dv => (some ({ value := JVal.int dv, display := display } : RegOptionEntry), ([] : List String))
      | none =>
        (none,
          ["Enum item " ++ display ++ " for element " ++ element.id ++ " in policy " ++
            polName ++ " is missing a decimal value structure."]))
    let elemOptionsList := results.filterMap (fun r => r.1)
    let ws := (results.map (fun r => r.2)).flatten
    (if elemOptionsList.length > 0 then
       { elemInfo with
         type := "REG_DWORD"
         options := some elemOptionsList }
     else { elemInfo with type := "REG_DWORD" }, ws)
  else if element.localName = "decimal" then ({ elemInfo with type := "REG_DWORD" }, [])
  else if element.localName = "text" then ({ elemInfo with type := "REG_SZ" }, [])
  else if element.localName = "boolean" then
    ({ elemInfo with
       type := "REG_DWORD"
       options := some
         [{ value := JVal.int 1,
            display := ResolveString "$(string.True)" StringTable (some "True") },
          { value := JVal.int 0,
            display := ResolveString "$(string.False)" StringTable (some "False") }] }, [])
  else if element.localName = "multiText" then ({ elemInfo with type := "REG_MULTI_SZ" }, [])
  else if element.localName = "list" then
    ({ elemInfo with type := "REG_SZ" },
      ["Registry representation for list element type for " ++ element.valueName ++
        " requires specific handling based on ADMX pattern."])
  else (elemInfo, [unsupportedElementWarning element.localName polName])

/-- The simple-policy part of Process-RegistryInfo: the record before
the elements section is examined (top-level valueName and the paired
enabled/disabled decimal structures). -/
def topRegInfo (PolicyNode : PolicyNodeSrc)
    (StringTable : List (String × String)) : RegInfo :=
  let regInfo : RegInfo :=
    { key := PolicyNode.key, valueName := none, type := "Unknown",
      enabledValue := none, disabledValue := none, options := none, elements := none }
  if PolicyNode.valueName = "" then regInfo
  else
    let regInfo := { regInfo with valueName := some PolicyNode.valueName }
    let enabledDecimalValue : Option String := match PolicyNode.enabledValue with
      | some (some v) => some v
      | _ => none
    let disabledDecimalValue : Option String := match PolicyNode.disabledValue with
      | some (some v) => some v
      | _ => none
    match enabledDecimalValue, disabledDecimalValue with
    | some ev, some dv =>
      { regInfo with
        type := "REG_DWORD"
        enabledValue := some ev
        disabledValue := some dv
        options := some
          [{ value := JVal.str ev,
             display := ResolveString "$(string.Enabled)" StringTable (some "Enabled") },
           { value := JVal.str dv,
             display := ResolveString "$(string.Disabled)" StringTable (some "Disabled") }] }
    | _, _ => regInfo

/-- Process-RegistryInfo: extract registry information from a policy
node.  Returns the record and the Write-Warning output. -/
def ProcessRegistryInfo (PolicyNode : PolicyNodeSrc)
    (StringTable : List (String × String)) : RegInfo × List String :=
  let regInfo := topRegInfo PolicyNode StringTable
  match PolicyNode.elements with
  | none => (regInfo, [])
  | some children =>
    let processed := children.map (fun e => processRegElement PolicyNode.name StringTable e)
    let elementList := processed.map (fun r => r.1)
    let ws := (processed.map (fun r => r.2)).flatten
    let regInfo :=
      if elementList.length > 0 then { regInfo with elements := some elementList } else regInfo
    if PolicyNode.valueName ≠ "" ∧ regInfo.elements ≠ none then
      let ws := ws ++
        ["Policy " ++ PolicyNode.name ++
          " has both a top-level valueName and elements. Registry information might be complex."]
      let regInfo :=
        if regInfo.type = "Unknown" ∧ regInfo.enabledValue ≠ none then
          { regInfo with type := "REG_DWORD" }
        else regInfo
      (regInfo, ws)
    else (regInfo, ws)

/-- Process-SupportedOn: look up the policy's supportedOn reference in
the definitions collected so far.  Returns the raw display token (or the
raw ref id on a miss) and the Write-Warning output. -/
def ProcessSupportedOn (PolicyNode : PolicyNodeSrc)
    (AdmxSupportedOnDefinitions : List (String × SupportedOnDefinition)) :
    String × List String :=
  match PolicyNode.supportedOn with
  | none => ("Not specified", [])
  | some refId =>
    match lookupL AdmxSupportedOnDefinitions refId with
    | some d => (d.RawDisplayName, [])
    | none =>
      (refId, ["SupportedOn reference " ++ refId ++ " not found for policy " ++
        PolicyNode.name ++ "."])

/-- Get-NamespacePrefixMap: target prefix first, then the using imports
(hashtable assignment, later entries overwrite). -/
def GetNamespacePrefixMap (f : AdmxFileSrc) : List (String × String) :=
  let m : List (String × String) := match f.target with
    | some (pfx, ns) => setL [] pfx ns
    | none => []
  f.usings.foldl (fun m pu => setL m pu.1 pu.2) m

/-- The Write-Warning text of the blank-name guard of the supportedOn
definition loop (also fired once when the section is absent or empty,
because piping $null runs the block once with a $null name). -/
def skipSuppDefWarning : String :=
  "Skipping supportedOn definition because its name attribute is missing or empty."

/-- The Write-Warning text of the blank-name guard of the category
loop. -/
def skipCategoryWarning (fileName : String) : String :=
  "Skipping category in " ++ fileName ++ " because its name attribute is missing or empty."

/-- The Write-Warning text of the blank-name guard of the policy
loop. -/
def skipPolicyWarning (fileName : String) : String :=
  "Skipping policy in " ++ fileName ++ " because its name attribute is missing or empty."

/-- The Write-Warning text of the blank-id guard of the presentation
loop. -/
def skipPresentationWarning (fileName : String) : String :=
  "Skipping a presentation in " ++ fileName ++ " because its id attribute is missing or empty."

/-- The global mutable registries of Step 1, plus the accumulated
Write-Warning output. -/
structure CollectState where
  allCategories : List (String × AdmxCategory)
  allPolicies : List (String × AdmxPolicy)
  allPresentations : List (String × PresentationNodeSrc)
  admxSupportedOnDefinitions : List (String × SupportedOnDefinition)
  admxNamespaces : List (String × List (String × String))
  warnings : List String
deriving DecidableEq

/-- The empty Step 1 state. -/
def initCollectState : CollectState :=
  { allCategories := [], allPolicies := [], allPresentations := [],
    admxSupportedOnDefinitions := [], admxNamespaces := [], warnings := [] }

/-- Collect one supportedOn definition: skip and warn on a blank name;
otherwise store it only if the name is not already present (first
definition wins; the duplicate branch has no Write-Warning). -/
def processSuppDef (st : CollectState) (d : SuppDefNode) : CollectState :=
  if isBlank d.name then
    { st with warnings := st.warnings ++ [skipSuppDefWarning] }
  else if containsKey st.admxSupportedOnDefinitions d.name then st
  else
    { st with admxSupportedOnDefinitions :=
        st.admxSupportedOnDefinitions ++ [(d.name, { Name := d.name, RawDisplayName := d.displayName })] }

/-- Resolution of a category node's parentCategory.ref against its
file's prefix map (the value stored with the category, plus the
Write-Warning output of Resolve-PrefixedName). -/
def catParentResolved (nsMap : List (String × String)) (tns : String)
    (c : CategoryNode) : Option String × List String :=
  match c.parentRef with
  | some r =>
    if r = "" then (none, [])
    else
      let rw := ResolvePrefixedName r nsMap tns
      (some rw.1, rw.2)
  | none => (none, [])

/-- The category record built for one category node. -/
def mkCategoryVal (fileName : String) (nsMap : List (String × String))
    (tns : String) (c : CategoryNode) : AdmxCategory :=
  { AdmxFile := fileName
    UniqueId := tns ++ "::" ++ c.name
    Name := c.name
    NamespaceUri := tns
    RawDisplayName := c.displayName
    ParentRefUniqueId := (catParentResolved nsMap tns c).1
    TempNode := c
    ChildrenIds := []
    PolicyIds := []
    ParentId := none }

/-- Collect one category node from a file with target namespace `tns`
and prefix map `nsMap`. -/
def processCategory (fileName : String) (nsMap : List (String × String))
    (tns : String) (st : CollectState) (c : CategoryNode) : CollectState :=
  if isBlank c.name then
    { st with warnings := st.warnings ++ [skipCategoryWarning fileName] }
  else
    let catUniqueId := tns ++ "::" ++ c.name
    let st :=
      if containsKey st.allCategories catUniqueId then
        { st with warnings := st.warnings ++
            ["Duplicate category definition found for " ++ catUniqueId ++ " in file " ++
              fileName ++ ". Overwriting."] }
      else st
    let st := { st with warnings := st.warnings ++ (catParentResolved nsMap tns c).2 }
    let newCats := setL st.allCategories catUniqueId (mkCategoryVal fileName nsMap tns c)
    { st with allCategories := newCats }

/-- The policy record built for one policy node, against the supportedOn
definitions collected so far. -/
def mkPolicyVal (fileName : String) (tns : String)
    (supps : List (String × SupportedOnDefinition)) (p : PolicyNodeSrc) : AdmxPolicy :=
  { AdmxFile := fileName
    UniqueId := tns ++ "::" ++ p.name
    Name := p.name
    NamespaceUri := tns
    Class := p.pclass
    RawDisplayName := p.displayName
    RawExplainText := p.explainText
    RawSupportedOn := (ProcessSupportedOn p supps).1
    PresentationRefRaw := p.presentationTok
    ParentCategoryRefRaw := p.parentCategoryRef
    TempNode := p
    CategoryId := none }

/-- Collect one policy node.  The raw supportedOn token is computed
against the supportedOn definitions collected so far. -/
def processPolicy (fileName : String) (tns : String) (st : CollectState)
    (p : PolicyNodeSrc) : CollectState :=
  if isBlank p.name then
    { st with warnings := st.warnings ++ [skipPolicyWarning fileName] }
  else
    let polUniqueId := tns ++ "::" ++ p.name
    let st :=
      if containsKey st.allPolicies polUniqueId then
        { st with warnings := st.warnings ++
            ["Duplicate policy definition found for " ++ polUniqueId ++ " in file " ++
              fileName ++ ". Overwriting."] }
      else st
    let st :=
      match p.parentCategoryRef with
      | some r =>
        if r = "" then
          { st with warnings := st.warnings ++
              ["Policy " ++ polUniqueId ++ " is missing parentCategory reference in " ++
                fileName ++ ". Skipping policy association."] }
        else st
      | none =>
        { st with warnings := st.warnings ++
            ["Policy " ++ polUniqueId ++ " is missing parentCategory reference in " ++
              fileName ++ ". Skipping policy association."] }
    let st := { st with warnings :=
        st.warnings ++ (ProcessSupportedOn p st.admxSupportedOnDefinitions).2 }
    let newPols := setL st.allPolicies polUniqueId
      (mkPolicyVal fileName tns st.admxSupportedOnDefinitions p)
    { st with allPolicies := newPols }

/-- Collect one presentation node (the script stores the raw XML node,
keyed by the target namespace and id). -/
def processPresentation (fileName : String) (tns : String) (st : CollectState)
    (pr : PresentationNodeSrc) : CollectState :=
  if isBlank pr.id then
    { st with warnings := st.warnings ++ [skipPresentationWarning fileName] }
  else
    let presUniqueId := tns ++ "::" ++ pr.id
    let st :=
      if containsKey st.allPresentations presUniqueId then
        { st with warnings := st.warnings ++
            ["Duplicate presentation definition found for " ++ presUniqueId ++ " in file " ++
              fileName ++ ". Overwriting."] }
      else st
    { st with allPresentations := setL st.allPresentations presUniqueId pr }

/-- Whether a file passes the target-namespace check of Step 1 (the
script skips a file whose target.namespace is $null or "", both falsy in
PowerShell). -/
def fileTargetOk (f : AdmxFileSrc) : Bool :=
  match f.target with
  | some (_, tns) => tns ≠ ""
  | none => false

/-- The target namespace URI of a file ("" when undeclared). -/
def fileTns (f : AdmxFileSrc) : String :=
  match f.target with
  | some (_, tns) => tns
  | none => ""

/-- Whether Step 1 crashes on a file inside Get-NamespacePrefixMap: when
the policyNamespaces node is present (a target namespace is declared)
but there are zero using imports, the using pipeline runs once on $null
and the null-key hashtable assignment raises a terminating error.  The
per-file catch then skips the whole file — nothing of it is recorded —
and reports via Write-Error, which is not part of the Write-Warning
stream modelled by `warnings`. -/
def fileCrashes (f : AdmxFileSrc) : Bool :=
  f.target.isSome && f.usings.isEmpty

/-- Whether a file's definition sections are actually collected: it must
survive Get-NamespacePrefixMap and declare a non-empty target
namespace. -/
def fileProcessed (f : AdmxFileSrc) : Bool :=
  !(fileCrashes f) && fileTargetOk f

/-- Iterate one definition section's ForEach-Object pipeline.  An absent
or empty section pipes $null once through the block, whose blank-name
guard fires that section's skip warning; otherwise each node of the
section is processed in order. -/
def sectionFold {α : Type} (emptyWarn : String)
    (step : CollectState → α → CollectState) (st : CollectState)
    (l : List α) : CollectState :=
  match l with
  | [] => { st with warnings := st.warnings ++ [emptyWarn] }
  | _ :: _ => l.foldl step st

/-- Process one ADMX file.  A file whose prefix-map construction crashes
(declared target, zero usings) is skipped entirely by the per-file
catch.  Otherwise its prefix map is recorded and, when a non-empty
target namespace is declared, its supportedOn definitions, categories,
policies and presentations are collected in that order (an absent or
empty section fires its skip warning once); a file without a target
namespace is skipped with a warning after its prefix map is recorded. -/
def processFile (st : CollectState) (f : AdmxFileSrc) : CollectState :=
  if fileCrashes f then st
  else
    let nsMap := GetNamespacePrefixMap f
    let st := { st with admxNamespaces := setL st.admxNamespaces f.path nsMap }
    if fileTargetOk f then
      let tns := fileTns f
      let st := sectionFold skipSuppDefWarning processSuppDef st f.suppDefs
      let st := sectionFold (skipCategoryWarning f.fileName)
        (processCategory f.fileName nsMap tns) st f.categories
      let st := sectionFold (skipPolicyWarning f.fileName)
        (processPolicy f.fileName tns) st f.policies
      let st := sectionFold (skipPresentationWarning f.fileName)
        (processPresentation f.fileName tns) st f.presentations
      st
    else
      { st with warnings := st.warnings ++
          ["Could not determine target namespace for " ++ f.fileName ++ ". Skipping."] }

/-- Step 1: process every ADMX file in the given enumeration order. -/
def collectAll (files : List AdmxFileSrc) : CollectState :=
  files.foldl processFile initCollectState

/-- The category map of Step 2. -/
abbrev CMap := List (String × AdmxCategory)

/-- The policy map of Step 2. -/
abbrev PMap := List (String × AdmxPolicy)

/-- The per-file namespace map registry. -/
abbrev NMap := List (String × List (String × String))

/-- One iteration of the category-linking loop of Step 2, for key `cid`:
when the stored parent reference is non-empty and present in the map,
append `cid` to the parent's ChildrenIds and set the child's ParentId. -/
def linkStep (cats : CMap) (cid : String) : CMap :=
  match lookupL cats cid with
  | none => cats
  | some c =>
    match c.ParentRefUniqueId with
    | none => cats
    | some pid =>
      if pid = "" then cats
      else if containsKey cats pid then
        modL (modL cats pid (fun p => { p with ChildrenIds := p.ChildrenIds ++ [cid] })) cid
          (fun c2 => { c2 with ParentId := some pid })
      else cats

/-- The category-linking pass, iterating the keys in order `L` (the
enumeration order of the hashtable keys is unspecified, so it is a
parameter). -/
def linkPass (cats : CMap) (L : List String) : CMap :=
  L.foldl linkStep cats

/-- Find the prefix map of the file a policy was defined in: first entry
of $admxNamespaces whose full path ends in a backslash followed by the
policy's file name. -/
def findNsMap (nsMaps : NMap) (admxFileName : String) : Option (List (String × String)) :=
  (nsMaps.find? (fun kv => List.isSuffixOf (("\\" ++ admxFileName).data) kv.1.data)).map
    (fun kv => kv.2)

/-- One iteration of the policy-association loop of Step 2, for key
`pid`: resolve the raw parent category reference through the prefix map
of the defining file; when the resolved id is a known category, append
`pid` to that category's PolicyIds and set the policy's CategoryId. -/
def assocStep (nsMaps : NMap) (st : CMap × PMap) (pid : String) : CMap × PMap :=
  match lookupL st.2 pid with
  | none => st
  | some p =>
    match p.ParentCategoryRefRaw with
    | none => st
    | some r =>
      if r = "" then st
      else
        match findNsMap nsMaps p.AdmxFile with
        | none => st
        | some nsMap =>
          let target := (ResolvePrefixedName r nsMap p.NamespaceUri).1
          if containsKey st.1 target then
            (modL st.1 target (fun c => { c with PolicyIds := c.PolicyIds ++ [pid] }),
             modL st.2 pid (fun p2 => { p2 with CategoryId := some target }))
          else st

/-- The policy-association pass, iterating the keys in order `L`. -/
def assocPass (cats : CMap) (pols : PMap) (nsMaps : NMap) (L : List String) : CMap × PMap :=
  L.foldl (assocStep nsMaps) (cats, pols)

/-- Step 2: category linking followed by policy association, with the
two key enumeration orders as parameters. -/
def step2 (cats : CMap) (pols : PMap) (nsMaps : NMap) (L1 L2 : List String) : CMap × PMap :=
  assocPass (linkPass cats L1) pols nsMaps L2

/-- One element of a parsed (per-language) presentation definition. -/
structure PresentationElementData where
  type : String
  refId : Option String
  label : Option String
  default : Option String
deriving DecidableEq

/-- A parsed per-language presentation definition (the output shape of
Parse-PresentationNode, supplied to Step 3 as an input map). -/
structure PresentationData where
  id : String
  elements : List PresentationElementData
deriving DecidableEq

/-- A resolved category record of the per-language output. -/
structure ResolvedCategory where
  id : String
  name : String
  displayName : String
  parent : Option String
  children : List String
  policies : List String
deriving DecidableEq

/-- A resolved policy record of the per-language output. -/
structure ResolvedPolicy where
  id : String
  name : String
  Class : String
  displayName : String
  explainText : String
  supportedOn : String
  categoryId : Option String
  registry : RegInfo
  presentation : Option PresentationData
  admxFile : String
deriving DecidableEq

/-- The emitted record set for one language. -/
structure LangOutput where
  language : String
  allCategories : List ResolvedCategory
  allPolicies : List ResolvedPolicy
deriving DecidableEq

/-- Build the resolved record of one category. -/
def resolvedCat (strings : List (String × String)) (catData : AdmxCategory) : ResolvedCategory :=
  { id := catData.UniqueId
    name := catData.Name
    displayName := ResolveString catData.RawDisplayName strings (some catData.Name)
    parent := catData.ParentId
    children := catData.ChildrenIds
    policies := catData.PolicyIds }

/-- Build the resolved record of one policy, including registry
extraction and the presentation lookup. -/
def resolvedPol (strings : List (String × String))
    (press : List (String × PresentationData)) (polData : AdmxPolicy) : ResolvedPolicy :=
  { id := polData.UniqueId
    name := polData.Name
    Class := polData.Class
    displayName := ResolveString polData.RawDisplayName strings (some polData.Name)
    explainText := ResolveString polData.RawExplainText strings (some "No description.")
    supportedOn := ResolveString polData.RawSupportedOn strings (some "Not specified")
    categoryId := polData.CategoryId
    registry := (ProcessRegistryInfo polData.TempNode strings).1
    presentation :=
      match matchPresToken polData.PresentationRefRaw with
      | some presentationId => lookupL press (polData.NamespaceUri ++ "::" ++ presentationId)
      | none => none
    admxFile := polData.AdmxFile }

/-- PowerShell truthiness of the parent field in the root-children
filter `-not parent`: $null and "" are both false. -/
def parentFalsy (parent : Option String) : Bool :=
  match parent with
  | none => true
  | some s => s = ""

/-- Step 3 for one language: resolve every category and policy, then
prepend the synthetic virtual root whose children are the resolved
categories without a parent. -/
def buildLangOutput (lang : String) (strings : List (String × String))
    (press : List (String × PresentationData)) (cats : CMap) (pols : PMap) : LangOutput :=
  let resolvedCategories := cats.map (fun kv => resolvedCat strings kv.2)
  let resolvedPolicies := pols.map (fun kv => resolvedPol strings press kv.2)
  let rootChildrenIds := (resolvedCategories.filter (fun rc => parentFalsy rc.parent)).map
    (fun rc => rc.id)
  let virtualRoot : ResolvedCategory :=
    { id := "ROOT"
      name := "ROOT"
      displayName :=
        ResolveString "$(string.VirtualRootDisplayName)" strings (some "Administrative Templates")
      parent := none
      children := rootChildrenIds
      policies := [] }
  { language := lang
    allCategories := virtualRoot :: resolvedCategories
    allPolicies := resolvedPolicies }

/-- Steps 2 and 3 composed, from already-collected global maps. -/
def pipelineFromMaps (cats : CMap) (pols : PMap) (nsMaps : NMap) (L1 L2 : List String)
    (lang : String) (strings : List (String × String))
    (press : List (String × PresentationData)) : LangOutput :=
  let cp := step2 cats pols nsMaps L1 L2
  buildLangOutput lang strings press cp.1 cp.2

/-- The whole pipeline for one language: Step 1 over the given file
enumeration, then Steps 2 and 3. -/
def runPipeline (files : List AdmxFileSrc) (L1 L2 : List String) (lang : String)
    (strings : List (String × String)) (press : List (String × PresentationData)) : LangOutput :=
  let st := collectAll files
  pipelineFromMaps st.allCategories st.allPolicies st.admxNamespaces L1 L2 lang strings press

/-- The parent a given key would link to in the category-linking pass:
the stored parent reference when it is non-empty and present in the map.
This depends only on fields the pass never modifies, so it is invariant
during the pass. -/
def linkTarget (cats : CMap) (cid : String) : Option String :=
  match lookupL cats cid with
  | none => none
  | some c =>
    match c.ParentRefUniqueId with
    | none => none
    | some pid =>
      if pid = "" then none
      else if containsKey cats pid then some pid else none

/-- The category a given policy key would be associated with in the
policy-association pass.  Also invariant during the pass. -/
def assocTarget (cats : CMap) (pols : PMap) (nsMaps : NMap) (pid : String) : Option String :=
  match lookupL pols pid with
  | none => none
  | some p =>
    match p.ParentCategoryRefRaw with
    | none => none
    | some r =>
      if r = "" then none
      else
        match findNsMap nsMaps p.AdmxFile with
        | none => none
        | some nsMap =>
          let target := (ResolvePrefixedName r nsMap p.NamespaceUri).1
          if containsKey cats target then some target else none

/-- The effect of `processSuppDef` on the supportedOn definition map
alone. -/
def suppMapStep (supps : List (String × SupportedOnDefinition)) (d : SuppDefNode) :
    List (String × SupportedOnDefinition) :=
  if isBlank d.name then supps
  else if containsKey supps d.name then supps
  else supps ++ [(d.name, { Name := d.name, RawDisplayName := d.displayName })]

/-- The effect of `processCategory` on the category map alone. -/
def catMapStep (fileName : String) (nsMap : List (String × String)) (tns : String)
    (cats : CMap) (c : CategoryNode) : CMap :=
  if isBlank c.name then cats
  else setL cats (tns ++ "::" ++ c.name) (mkCategoryVal fileName nsMap tns c)

/-- The effect of `processPolicy` on the policy map alone (the
supportedOn definition map is constant during the policy loop of one
file). -/
def polMapStep (fileName : String) (tns : String)
    (supps : List (String × SupportedOnDefinition)) (pols : PMap) (p : PolicyNodeSrc) : PMap :=
  if isBlank p.name then pols
  else setL pols (tns ++ "::" ++ p.name) (mkPolicyVal fileName tns supps p)

/-- The effect of one file on the supportedOn definition map (a crashed
or targetless file contributes nothing). -/
def fileSupps (f : AdmxFileSrc) (supps : List (String × SupportedOnDefinition)) :
    List (String × SupportedOnDefinition) :=
  if fileProcessed f then f.suppDefs.foldl suppMapStep supps else supps

/-- The effect of one file on the category map. -/
def fileCats (f : AdmxFileSrc) (cats : CMap) : CMap :=
  if fileProcessed f then
    f.categories.foldl (catMapStep f.fileName (GetNamespacePrefixMap f) (fileTns f)) cats
  else cats

/-- The effect of one file on the policy map, given the supportedOn
definition map in force while its policies are read. -/
def filePols (f : AdmxFileSrc) (supps : List (String × SupportedOnDefinition))
    (pols : PMap) : PMap :=
  if fileProcessed f then f.policies.foldl (polMapStep f.fileName (fileTns f) supps) pols
  else pols

/-- The supportedOn definition names a file contributes. -/
def fileSuppNames (f : AdmxFileSrc) : List String :=
  if fileProcessed f then
    (f.suppDefs.filter (fun d => !(isBlank d.name))).map (fun d => d.name)
  else []

/-- The category unique ids a file contributes. -/
def fileCatIds (f : AdmxFileSrc) : List String :=
  if fileProcessed f then
    (f.categories.filter (fun c => !(isBlank c.name))).map (fun c => fileTns f ++ "::" ++ c.name)
  else []

/-- The policy unique ids a file contributes. -/
def filePolIds (f : AdmxFileSrc) : List String :=
  if fileProcessed f then
    (f.policies.filter (fun p => !(isBlank p.name))).map (fun p => fileTns f ++ "::" ++ p.name)
  else []

/-- The supportedOn references looked up while a file's policies are
collected. -/
def filePolRefs (f : AdmxFileSrc) : List String :=
  if fileProcessed f then
    (f.policies.filter (fun p => !(isBlank p.name))).filterMap (fun p => p.supportedOn)
  else []

/-- Whether a string is one of the two reference-token forms recognized
by Resolve-String. -/
def isTokenForm (s : String) : Bool :=
  (matchStringToken s).isSome || likeWindowsSupported s

/-- The id fields of an output's allCategories records. -/
def outCatIds (out : LangOutput) : List String :=
  out.allCategories.map (fun rc => rc.id)

/-- The children list of the first allCategories record (the virtual
root) of an output. -/
def outRootChildren (out : LangOutput) : List String :=
  match out.allCategories.head? with
  | some rt => rt.children
  | none => []

/-- Example category nodes and map: category B declares category A as
its parent. -/
def cexCatNodeA : CategoryNode := { name := "A", displayName := "$(string.A)", parentRef := none }

/-- Example category node B (see cexCatNodeA). -/
def cexCatNodeB : CategoryNode := { name := "B", displayName := "$(string.B)", parentRef := some "A" }

/-- Example collected category A. -/
def cexCatA : AdmxCategory :=
  { AdmxFile := "ex.admx", UniqueId := "A", Name := "A", NamespaceUri := "ns",
    RawDisplayName := "$(string.A)", ParentRefUniqueId := none, TempNode := cexCatNodeA,
    ChildrenIds := [], PolicyIds := [], ParentId := none }

/-- Example collected category B, child of A. -/
def cexCatB : AdmxCategory :=
  { AdmxFile := "ex.admx", UniqueId := "B", Name := "B", NamespaceUri := "ns",
    RawDisplayName := "$(string.B)", ParentRefUniqueId := some "A", TempNode := cexCatNodeB,
    ChildrenIds := [], PolicyIds := [], ParentId := none }

/-- Example category map with a parent-child pair. -/
def cexCats : CMap := [("A", cexCatA), ("B", cexCatB)]

/-- Example policy node whose supportedOn reference lives in another
file. -/
def cexPolP : PolicyNodeSrc :=
  { name := "P", pclass := "Machine", displayName := "$(string.P)",
    explainText := "$(string.P_Help)", supportedOn := some "SUPPORTED_X",
    parentCategoryRef := none, presentationTok := "", key := "Software\\P",
    valueName := "", enabledValue := none, disabledValue := none, elements := none }

/-- Example file A: one policy, no supportedOn definitions, and one
using entry so the prefix-map construction does not crash. -/
def cexFileA : AdmxFileSrc :=
  { path := "C:\\defs\\a.admx", fileName := "a.admx", target := some ("a", "nsA"),
    usings := [("w", "nsWin")], suppDefs := [], categories := [], policies := [cexPolP],
    presentations := [] }

/-- Example file B: the supportedOn definition policy P refers to. -/
def cexFileB : AdmxFileSrc :=
  { path := "C:\\defs\\b.admx", fileName := "b.admx", target := some ("b", "nsB"),
    usings := [("w", "nsWin")],
    suppDefs := [{ name := "SUPPORTED_X", displayName := "$(string.X)" }],
    categories := [], policies := [], presentations := [] }

/-- The policy node of example file C. -/
def wPolNodeC : PolicyNodeSrc :=
  { name := "PolC"
    pclass := "Machine"
    displayName := "$(string.PolC)"
    explainText := "$(string.PolC_Help)"
    supportedOn := some "SUPPORTED_C"
    parentCategoryRef := some "CatC"
    presentationTok := ""
    key := "Software\\C"
    valueName := "Val"
    enabledValue := some (some "1")
    disabledValue := some (some "0")
    elements := none }

/-- Self-contained example file C (its references resolve within the
file itself). -/
def wFileC : AdmxFileSrc :=
  { path := "C:\\defs\\c.admx", fileName := "c.admx", target := some ("c", "nsC"),
    usings := [("w", "nsWin")],
    suppDefs := [{ name := "SUPPORTED_C", displayName := "$(string.C)" }],
    categories := [{ name := "CatC", displayName := "$(string.CatC)", parentRef := none }],
    policies := [wPolNodeC],
    presentations := [] }

/-- The policy node of example file D. -/
def wPolNodeD : PolicyNodeSrc :=
  { name := "PolD"
    pclass := "User"
    displayName := "$(string.PolD)"
    explainText := "$(string.PolD_Help)"
    supportedOn := some "SUPPORTED_D"
    parentCategoryRef := some "CatD"
    presentationTok := ""
    key := "Software\\D"
    valueName := ""
    enabledValue := none
    disabledValue := none
    elements := none }

/-- Self-contained example file D, disjoint from wFileC. -/
def wFileD : AdmxFileSrc :=
  { path := "C:\\defs\\d.admx", fileName := "d.admx", target := some ("d", "nsD"),
    usings := [("w", "nsWin")],
    suppDefs := [{ name := "SUPPORTED_D", displayName := "$(string.D)" }],
    categories := [{ name := "CatD", displayName := "$(string.CatD)", parentRef := none }],
    policies := [wPolNodeD],
    presentations := [] }

/-- Two files defining the same supportedOn name with different display
tokens. -/
def dupFile1 : AdmxFileSrc :=
  { path := "C:\\defs\\d1.admx", fileName := "d1.admx", target := some ("p", "ns1"),
    usings := [("w", "nsWin")],
    suppDefs := [{ name := "SUPPORTED_A", displayName := "$(string.A1)" }],
    categories := [], policies := [], presentations := [] }

/-- The second file with the duplicate supportedOn definition. -/
def dupFile2 : AdmxFileSrc :=
  { path := "C:\\defs\\d2.admx", fileName := "d2.admx", target := some ("q", "ns2"),
    usings := [("w", "nsWin")],
    suppDefs := [{ name := "SUPPORTED_A", displayName := "$(string.A2)" }],
    categories := [], policies := [], presentations := [] }

/-- The second file with a fresh (non-duplicate) supportedOn definition
name, for comparing the Write-Warning output of the duplicate run
against a duplicate-free run. -/
def dupFile2Fresh : AdmxFileSrc :=
  { dupFile2 with suppDefs := [{ name := "SUPPORTED_B", displayName := "$(string.A2)" }] }

/-- A collected category with a dangling parent reference. -/
def wDanglingCat : AdmxCategory :=
  { AdmxFile := "w.admx", UniqueId := "nsW::C", Name := "C", NamespaceUri := "nsW",
    RawDisplayName := "$(string.C)",
    ParentRefUniqueId := some "nsW::Missing",
    TempNode := { name := "C", displayName := "$(string.C)", parentRef := some "Missing" },
    ChildrenIds := [], PolicyIds := [], ParentId := none }

/-- A category map containing only the dangling-parent category. -/
def wCats3 : CMap := [("nsW::C", wDanglingCat)]

/-- The policy node of example file E. -/
def wPolNodeE : PolicyNodeSrc :=
  { name := "Pol"
    pclass := "Machine"
    displayName := "$(string.Pol)"
    explainText := "$(string.Pol_Help)"
    supportedOn := none
    parentCategoryRef := some "Cat"
    presentationTok := ""
    key := "Software\\W"
    valueName := ""
    enabledValue := none
    disabledValue := none
    elements := none }

/-- A one-file input whose policy references an existing category. -/
def wFileE : AdmxFileSrc :=
  { path := "C:\\defs\\w.admx", fileName := "w.admx", target := some ("w", "nsW"),
    usings := [("u", "nsWin")],
    suppDefs := [],
    categories := [{ name := "Cat", displayName := "$(string.Cat)", parentRef := none }],
    policies := [wPolNodeE],
    presentations := [] }

/-- A collected policy whose raw tokens do not resolve in an empty
string table. -/
def cexPolRec : AdmxPolicy :=
  { AdmxFile := "e.admx", UniqueId := "ns::P", Name := "P", NamespaceUri := "ns",
    Class := "Machine", RawDisplayName := "$(string.missingD)",
    RawExplainText := "$(string.missingE)", RawSupportedOn := "$(string.missingS)",
    PresentationRefRaw := "", ParentCategoryRefRaw := none, TempNode := cexPolP,
    CategoryId := none }

/-- A policy map with the unresolvable policy. -/
def cexPols4 : PMap := [("ns::P", cexPolRec)]

/-- An elements child of an unrecognized kind. -/
def cexFooElement : ElementNode :=
  { localName := "foo", id := "E1", valueName := "V1", items := [],
    minValue := none, maxValue := none, maxLength := none, required := none }

/-- A policy node declaring one elements child of unrecognized kind. -/
def cexFooNode : PolicyNodeSrc :=
  { name := "FooPol", pclass := "Machine", displayName := "$(string.FooPol)",
    explainText := "$(string.FooPol_Help)", supportedOn := none,
    parentCategoryRef := some "Cat", presentationTok := "", key := "Software\\Foo",
    valueName := "", enabledValue := none, disabledValue := none,
    elements := some [cexFooElement] }

/-! ## Association-list lemmas -/

theorem lookupL_setL {V : Type} (m : List (String × V)) (k : String) (v : V) (j : String) :
    lookupL (setL m k v) j = if k = j then some v else lookupL m j := by
  induction m with
  | nil => by_cases h : k = j <;> simp [setL, lookupL, h]
  | cons kv rest ih =>
    by_cases h : kv.1 = k <;> by_cases hj : k = j <;>
      simp_all [setL, lookupL]

theorem lookupL_modL {V : Type} (m : List (String × V)) (k : String) (f : V → V) (j : String) :
    lookupL (modL m k f) j = if k = j then (lookupL m j).map f else lookupL m j := by
  induction m with
  | nil => by_cases h : k = j <;> simp [modL, lookupL, h]
  | cons kv rest ih =>
    by_cases h : kv.1 = k <;> by_cases hj : k = j <;>
      simp_all [modL, lookupL]

theorem containsKey_setL {V : Type} (m : List (String × V)) (k : String) (v : V) (j : String) :
    containsKey (setL m k v) j = (if k = j then true else containsKey m j) := by
  by_cases h : k = j <;> simp [containsKey, lookupL_setL, h]

theorem containsKey_modL {V : Type} (m : List (String × V)) (k : String) (f : V → V) (j : String) :
    containsKey (modL m k f) j = containsKey m j := by
  by_cases h : k = j <;> simp [containsKey, lookupL_modL, h]

theorem lookupL_append {V : Type} (m1 m2 : List (String × V)) (j : String) :
    lookupL (m1 ++ m2) j =
      match lookupL m1 j with
      | some v => some v
      | none => lookupL m2 j := by
  induction m1 with
  | nil => simp [lookupL]
  | cons kv rest ih =>
    by_cases h : kv.1 = j <;> simp_all [lookupL]

theorem lookupL_mem {V : Type} {m : List (String × V)} {k : String} {v : V}
    (h : lookupL m k = some v) : (k, v) ∈ m := by
  induction m with
  | nil => simp [lookupL] at h
  | cons kv rest ih =>
    by_cases hk : kv.1 = k
    · simp [lookupL, hk] at h
      subst h
      have hkv : kv = (k, kv.2) := by
        cases kv
        simp_all
      rw [hkv] at *
      exact List.mem_cons_self _ _
    · simp [lookupL, hk] at h
      right
      exact ih h

/-! ## Characterization of the category-linking pass -/

theorem linkStep_id_of_target_none (cats : CMap) (a k : String)
    (hval : linkStep cats a = cats) (hta : linkTarget cats a = none) :
    lookupL (linkStep cats a) k =
      (lookupL cats k).map (fun c =>
        { c with
          ChildrenIds := c.ChildrenIds ++
            (if linkTarget cats a = some k then [a] else [])
          ParentId := if k = a ∧ (linkTarget cats k).isSome then linkTarget cats k
                      else c.ParentId }) := by
  rw [hval, hta]
  by_cases hka : k = a
  · subst hka
    cases hx : lookupL cats k <;> simp [hta, hx]
  · cases hx : lookupL cats k <;> simp [hka, hx]

theorem linkStep_lookup (cats : CMap) (a k : String) :
    lookupL (linkStep cats a) k =
      (lookupL cats k).map (fun c =>
        { c with
          ChildrenIds := c.ChildrenIds ++
            (if linkTarget cats a = some k then [a] else [])
          ParentId := if k = a ∧ (linkTarget cats k).isSome then linkTarget cats k
                      else c.ParentId }) := by
  cases ha : lookupL cats a with
  | none =>
    refine linkStep_id_of_target_none cats a k ?_ ?_
    · simp [linkStep, ha]
    · simp [linkTarget, ha]
  | some c0 =>
    cases hpr : c0.ParentRefUniqueId with
    | none =>
      refine linkStep_id_of_target_none cats a k ?_ ?_
      · simp [linkStep, ha, hpr]
      · simp [linkTarget, ha, hpr]
    | some pid =>
      by_cases hpe : pid = ""
      · refine linkStep_id_of_target_none cats a k ?_ ?_
        · simp [linkStep, ha, hpr, hpe]
        · simp [linkTarget, ha, hpr, hpe]
      · by_cases hck : containsKey cats pid = true
        · have hta : linkTarget cats a = some pid := by
            simp [linkTarget, ha, hpr, hpe, hck]
          have hval : linkStep cats a =
              modL (modL cats pid
                  (fun p => { p with ChildrenIds := p.ChildrenIds ++ [a] })) a
                (fun c2 => { c2 with ParentId := some pid }) := by
            simp [linkStep, ha, hpr, hpe, hck]
          rw [hval, lookupL_modL, lookupL_modL, hta]
          by_cases hka : k = a
          · subst hka
            have htk : linkTarget cats k = some pid := hta
            by_cases hpk : pid = k
            · rw [if_pos rfl, if_pos hpk, ha]
              simp [htk, hpk]
            · rw [if_pos rfl, if_neg hpk, ha]
              simp [htk, hpk]
          · have hak : ¬(a = k) := fun h => hka h.symm
            rw [if_neg hak]
            by_cases hpk : pid = k
            · rw [if_pos hpk]
              cases hx : lookupL cats k <;> simp [hka, hpk, hx]
            · rw [if_neg hpk]
              cases hx : lookupL cats k <;> simp [hka, hpk, hx]
        · refine linkStep_id_of_target_none cats a k ?_ ?_
          · simp [linkStep, ha, hpr, hpe, hck]
          · simp [linkTarget, ha, hpr, hpe, hck]

theorem containsKey_linkStep (cats : CMap) (a x : String) :
    containsKey (linkStep cats a) x = containsKey cats x := by
  cases h : lookupL cats x <;> simp [containsKey, linkStep_lookup, h]

theorem linkTarget_linkStep (cats : CMap) (a j : String) :
    linkTarget (linkStep cats a) j = linkTarget cats j := by
  unfold linkTarget
  rw [linkStep_lookup]
  cases hj : lookupL cats j with
  | none => simp
  | some c =>
    simp only [Option.map_some']
    cases hpr : c.ParentRefUniqueId <;> simp [hpr, containsKey_linkStep]

theorem linkPass_lookup (L : List String) (cats : CMap) (k : String) :
    lookupL (linkPass cats L) k =
      (lookupL cats k).map (fun c =>
        { c with
          ChildrenIds := c.ChildrenIds ++
            L.filter (fun j => decide (linkTarget cats j = some k))
          ParentId := if k ∈ L ∧ (linkTarget cats k).isSome then linkTarget cats k
                      else c.ParentId }) := by
  induction L generalizing cats with
  | nil =>
    cases hk : lookupL cats k <;> simp [linkPass, hk]
  | cons a L ih =>
    have hstep : linkPass cats (a :: L) = linkPass (linkStep cats a) L := rfl
    rw [hstep, ih, linkStep_lookup]
    simp only [linkTarget_linkStep, Option.map_map]
    cases hk : lookupL cats k with
    | none => simp
    | some c =>
      simp only [Option.map_some', Function.comp]
      refine congrArg some ?_
      have hch :
          (c.ChildrenIds ++ (if linkTarget cats a = some k then [a] else [])) ++
              L.filter (fun j => decide (linkTarget cats j = some k)) =
            c.ChildrenIds ++
              (a :: L).filter (fun j => decide (linkTarget cats j = some k)) := by
        rw [List.append_assoc]
        refine congrArg (fun l => c.ChildrenIds ++ l) ?_
        by_cases hja : linkTarget cats a = some k <;>
          simp [List.filter_cons, hja]
      have hpar :
          (if k ∈ L ∧ (linkTarget cats k).isSome then linkTarget cats k
           else if k = a ∧ (linkTarget cats k).isSome then linkTarget cats k
                else c.ParentId) =
            (if k ∈ a :: L ∧ (linkTarget cats k).isSome then linkTarget cats k
             else c.ParentId) := by
        by_cases hsm : (linkTarget cats k).isSome
        · by_cases hkL : k ∈ L
          · have h1 : k ∈ a :: L := List.mem_cons_of_mem a hkL
            rw [if_pos ⟨hkL, hsm⟩, if_pos ⟨h1, hsm⟩]
          · have h2 : ¬(k ∈ L ∧ (linkTarget cats k).isSome) := fun h => hkL h.1
            rw [if_neg h2]
            by_cases hka : k = a
            · have h3 : k ∈ a :: L := by rw [hka]; exact List.mem_cons_self a L
              rw [if_pos ⟨hka, hsm⟩, if_pos ⟨h3, hsm⟩]
            · have h4 : ¬(k ∈ a :: L) := by
                rw [List.mem_cons]
                push_neg
                exact ⟨hka, hkL⟩
              rw [if_neg (fun h => hka h.1), if_neg (fun h => h4 h.1)]
        · rw [if_neg (fun h => hsm h.2), if_neg (fun h => hsm h.2),
            if_neg (fun h => hsm h.2)]
      rw [← hch, ← hpar]

/-! ## Characterization of the policy-association pass -/

theorem assocStep_id_of_target_none (nsMaps : NMap) (cats : CMap) (pols : PMap)
    (a : String) (hta : assocTarget cats pols nsMaps a = none)
    (hval : assocStep nsMaps (cats, pols) a = (cats, pols)) :
    ∀ k,
      (lookupL (assocStep nsMaps (cats, pols) a).2 k =
        (lookupL pols k).map (fun p =>
          { p with CategoryId :=
              if k = a ∧ (assocTarget cats pols nsMaps k).isSome then
                assocTarget cats pols nsMaps k
              else p.CategoryId })) ∧
      (lookupL (assocStep nsMaps (cats, pols) a).1 k =
        (lookupL cats k).map (fun c =>
          { c with PolicyIds := c.PolicyIds ++
              (if assocTarget cats pols nsMaps a = some k then [a] else []) })) := by
  intro k
  rw [hval]
  constructor
  · by_cases hka : k = a
    · subst hka
      cases hx : lookupL pols k <;> simp [hta, hx]
    · cases hx : lookupL pols k <;> simp [hka, hx]
  · cases hx : lookupL cats k <;> simp [hta, hx]

theorem assocStep_lookup_pols (nsMaps : NMap) (cats : CMap) (pols : PMap) (a k : String) :
    lookupL (assocStep nsMaps (cats, pols) a).2 k =
      (lookupL pols k).map (fun p =>
        { p with CategoryId :=
            if k = a ∧ (assocTarget cats pols nsMaps k).isSome then
              assocTarget cats pols nsMaps k
            else p.CategoryId }) := by
  cases ha : lookupL pols a with
  | none =>
    exact ((assocStep_id_of_target_none nsMaps cats pols a
      (by simp [assocTarget, ha]) (by simp [assocStep, ha])) k).1
  | some p0 =>
    cases hpr : p0.ParentCategoryRefRaw with
    | none =>
      exact ((assocStep_id_of_target_none nsMaps cats pols a
        (by simp [assocTarget, ha, hpr]) (by simp [assocStep, ha, hpr])) k).1
    | some r =>
      by_cases hre : r = ""
      · exact ((assocStep_id_of_target_none nsMaps cats pols a
          (by simp [assocTarget, ha, hpr, hre]) (by simp [assocStep, ha, hpr, hre])) k).1
      · cases hns : findNsMap nsMaps p0.AdmxFile with
        | none =>
          exact ((assocStep_id_of_target_none nsMaps cats pols a
            (by simp [assocTarget, ha, hpr, hre, hns])
            (by simp [assocStep, ha, hpr, hre, hns])) k).1
        | some nsMap =>
          by_cases hck :
              containsKey cats (ResolvePrefixedName r nsMap p0.NamespaceUri).1 = true
          · have hta : assocTarget cats pols nsMaps a =
                some (ResolvePrefixedName r nsMap p0.NamespaceUri).1 := by
              simp [assocTarget, ha, hpr, hre, hns, hck]
            have hval : (assocStep nsMaps (cats, pols) a).2 =
                modL pols a (fun p2 => { p2 with CategoryId := some (ResolvePrefixedName r nsMap p0.NamespaceUri).1 }) := by
              simp [assocStep, ha, hpr, hre, hns, hck]
            rw [hval, lookupL_modL]
            by_cases hka : k = a
            · subst hka
              rw [if_pos rfl, ha]
              simp [hta]
            · have hak : ¬(a = k) := fun h => hka h.symm
              rw [if_neg hak]
              cases hx : lookupL pols k <;> simp [hka, hx]
          · exact ((assocStep_id_of_target_none nsMaps cats pols a
              (by simp [assocTarget, ha, hpr, hre, hns, hck])
              (by simp [assocStep, ha, hpr, hre, hns, hck])) k).1

theorem assocStep_lookup_cats (nsMaps : NMap) (cats : CMap) (pols : PMap) (a k : String) :
    lookupL (assocStep nsMaps (cats, pols) a).1 k =
      (lookupL cats k).map (fun c =>
        { c with PolicyIds := c.PolicyIds ++
            (if assocTarget cats pols nsMaps a = some k then [a] else []) }) := by
  cases ha : lookupL pols a with
  | none =>
    exact ((assocStep_id_of_target_none nsMaps cats pols a
      (by simp [assocTarget, ha]) (by simp [assocStep, ha])) k).2
  | some p0 =>
    cases hpr : p0.ParentCategoryRefRaw with
    | none =>
      exact ((assocStep_id_of_target_none nsMaps cats pols a
        (by simp [assocTarget, ha, hpr]) (by simp [assocStep, ha, hpr])) k).2
    | some r =>
      by_cases hre : r = ""
      · exact ((assocStep_id_of_target_none nsMaps cats pols a
          (by simp [assocTarget, ha, hpr, hre]) (by simp [assocStep, ha, hpr, hre])) k).2
      · cases hns : findNsMap nsMaps p0.AdmxFile with
        | none =>
          exact ((assocStep_id_of_target_none nsMaps cats pols a
            (by simp [assocTarget, ha, hpr, hre, hns])
            (by simp [assocStep, ha, hpr, hre, hns])) k).2
        | some nsMap =>
          by_cases hck :
              containsKey cats (ResolvePrefixedName r nsMap p0.NamespaceUri).1 = true
          · have hta : assocTarget cats pols nsMaps a =
                some (ResolvePrefixedName r nsMap p0.NamespaceUri).1 := by
              simp [assocTarget, ha, hpr, hre, hns, hck]
            have hval : (assocStep nsMaps (cats, pols) a).1 =
                modL cats (ResolvePrefixedName r nsMap p0.NamespaceUri).1
                  (fun c => { c with PolicyIds := c.PolicyIds ++ [a] }) := by
              simp [assocStep, ha, hpr, hre, hns, hck]
            rw [hval, lookupL_modL, hta]
            by_cases htk : (ResolvePrefixedName r nsMap p0.NamespaceUri).1 = k
            · rw [if_pos htk]
              cases hx : lookupL cats k <;> simp [htk, hx]
            · rw [if_neg htk]
              cases hx : lookupL cats k <;> simp [htk, hx]
          · exact ((assocStep_id_of_target_none nsMaps cats pols a
              (by simp [assocTarget, ha, hpr, hre, hns, hck])
              (by simp [assocStep, ha, hpr, hre, hns, hck])) k).2

theorem containsKey_assocStep_cats (nsMaps : NMap) (cats : CMap) (pols : PMap) (a x : String) :
    containsKey (assocStep nsMaps (cats, pols) a).1 x = containsKey cats x := by
  cases h : lookupL cats x <;> simp [containsKey, assocStep_lookup_cats, h]

theorem assocTarget_assocStep (nsMaps : NMap) (cats : CMap) (pols : PMap) (a j : String) :
    assocTarget (assocStep nsMaps (cats, pols) a).1 (assocStep nsMaps (cats, pols) a).2
      nsMaps j = assocTarget cats pols nsMaps j := by
  unfold assocTarget
  rw [assocStep_lookup_pols]
  cases hj : lookupL pols j with
  | none => simp
  | some p =>
    simp only [Option.map_some']
    cases hpr : p.ParentCategoryRefRaw with
    | none => simp [hpr]
    | some r => simp [hpr, containsKey_assocStep_cats]

theorem assocPass_lookup_pols (L : List String) (cats : CMap) (pols : PMap)
    (nsMaps : NMap) (k : String) :
    lookupL (assocPass cats pols nsMaps L).2 k =
      (lookupL pols k).map (fun p =>
        { p with CategoryId :=
            if k ∈ L ∧ (assocTarget cats pols nsMaps k).isSome then
              assocTarget cats pols nsMaps k
            else p.CategoryId }) := by
  induction L generalizing cats pols with
  | nil =>
    cases hk : lookupL pols k <;> simp [assocPass, hk]
  | cons a L ih =>
    have hstep : assocPass cats pols nsMaps (a :: L) =
        assocPass (assocStep nsMaps (cats, pols) a).1
          (assocStep nsMaps (cats, pols) a).2 nsMaps L := rfl
    rw [hstep, ih, assocStep_lookup_pols]
    simp only [assocTarget_assocStep, Option.map_map]
    cases hk : lookupL pols k with
    | none => simp
    | some p =>
      simp only [Option.map_some', Function.comp]
      refine congrArg some ?_
      have hcid :
          (if k ∈ L ∧ (assocTarget cats pols nsMaps k).isSome then
             assocTarget cats pols nsMaps k
           else if k = a ∧ (assocTarget cats pols nsMaps k).isSome then
             assocTarget cats pols nsMaps k
           else p.CategoryId) =
            (if k ∈ a :: L ∧ (assocTarget cats pols nsMaps k).isSome then
               assocTarget cats pols nsMaps k
             else p.CategoryId) := by
        by_cases hsm : (assocTarget cats pols nsMaps k).isSome
        · by_cases hkL : k ∈ L
          · rw [if_pos ⟨hkL, hsm⟩, if_pos ⟨List.mem_cons_of_mem a hkL, hsm⟩]
          · rw [if_neg (fun h => hkL h.1)]
            by_cases hka : k = a
            · have h3 : k ∈ a :: L := by rw [hka]; exact List.mem_cons_self a L
              rw [if_pos ⟨hka, hsm⟩, if_pos ⟨h3, hsm⟩]
            · have h4 : ¬(k ∈ a :: L) := by
                rw [List.mem_cons]
                push_neg
                exact ⟨hka, hkL⟩
              rw [if_neg (fun h => hka h.1), if_neg (fun h => h4 h.1)]
        · rw [if_neg (fun h => hsm h.2), if_neg (fun h => hsm h.2),
            if_neg (fun h => hsm h.2)]
      rw [← hcid]

theorem assocPass_lookup_cats (L : List String) (cats : CMap) (pols : PMap)
    (nsMaps : NMap) (k : String) :
    lookupL (assocPass cats pols nsMaps L).1 k =
      (lookupL cats k).map (fun c =>
        { c with PolicyIds := c.PolicyIds ++
            L.filter (fun j => decide (assocTarget cats pols nsMaps j = some k)) }) := by
  induction L generalizing cats pols with
  | nil =>
    cases hk : lookupL cats k <;> simp [assocPass, hk]
  | cons a L ih =>
    have hstep : assocPass cats pols nsMaps (a :: L) =
        assocPass (assocStep nsMaps (cats, pols) a).1
          (assocStep nsMaps (cats, pols) a).2 nsMaps L := rfl
    rw [hstep, ih, assocStep_lookup_cats]
    simp only [assocTarget_assocStep, Option.map_map]
    cases hk : lookupL cats k with
    | none => simp
    | some c =>
      simp only [Option.map_some', Function.comp]
      refine congrArg some ?_
      have hpi :
          (c.PolicyIds ++ (if assocTarget cats pols nsMaps a = some k then [a] else [])) ++
              L.filter (fun j => decide (assocTarget cats pols nsMaps j = some k)) =
            c.PolicyIds ++
              (a :: L).filter (fun j => decide (assocTarget cats pols nsMaps j = some k)) := by
        rw [List.append_assoc]
        refine congrArg (fun l => c.PolicyIds ++ l) ?_
        by_cases hja : assocTarget cats pols nsMaps a = some k <;>
          simp [List.filter_cons, hja]
      rw [← hpi]

/-! ## Projection of Step 1 onto the individual global maps -/

theorem processSuppDef_cats (st : CollectState) (d : SuppDefNode) :
    (processSuppDef st d).allCategories = st.allCategories := by
  unfold processSuppDef
  split_ifs <;> rfl

theorem processSuppDef_pols (st : CollectState) (d : SuppDefNode) :
    (processSuppDef st d).allPolicies = st.allPolicies := by
  unfold processSuppDef
  split_ifs <;> rfl

theorem processSuppDef_supps (st : CollectState) (d : SuppDefNode) :
    (processSuppDef st d).admxSupportedOnDefinitions =
      suppMapStep st.admxSupportedOnDefinitions d := by
  unfold processSuppDef suppMapStep
  split_ifs <;> rfl

theorem suppFold_cats (ds : List SuppDefNode) (st : CollectState) :
    (List.foldl processSuppDef st ds).allCategories = st.allCategories := by
  induction ds generalizing st with
  | nil => rfl
  | cons d ds ih => rw [List.foldl_cons, ih, processSuppDef_cats]

theorem suppFold_pols (ds : List SuppDefNode) (st : CollectState) :
    (List.foldl processSuppDef st ds).allPolicies = st.allPolicies := by
  induction ds generalizing st with
  | nil => rfl
  | cons d ds ih => rw [List.foldl_cons, ih, processSuppDef_pols]

theorem suppFold_supps (ds : List SuppDefNode) (st : CollectState) :
    (List.foldl processSuppDef st ds).admxSupportedOnDefinitions =
      List.foldl suppMapStep st.admxSupportedOnDefinitions ds := by
  induction ds generalizing st with
  | nil => rfl
  | cons d ds ih => rw [List.foldl_cons, ih, processSuppDef_supps, List.foldl_cons]

theorem processCategory_cats (fn : String) (ns : List (String × String)) (tns : String)
    (st : CollectState) (c : CategoryNode) :
    (processCategory fn ns tns st c).allCategories =
      catMapStep fn ns tns st.allCategories c := by
  unfold processCategory catMapStep
  by_cases hb : isBlank c.name = true
  · simp [hb]
  · by_cases hd : containsKey st.allCategories (tns ++ "::" ++ c.name) = true <;>
      simp [hb, hd]

theorem processCategory_pols (fn : String) (ns : List (String × String)) (tns : String)
    (st : CollectState) (c : CategoryNode) :
    (processCategory fn ns tns st c).allPolicies = st.allPolicies := by
  unfold processCategory
  by_cases hb : isBlank c.name = true
  · simp [hb]
  · by_cases hd : containsKey st.allCategories (tns ++ "::" ++ c.name) = true <;>
      simp [hb, hd]

theorem processCategory_supps (fn : String) (ns : List (String × String)) (tns : String)
    (st : CollectState) (c : CategoryNode) :
    (processCategory fn ns tns st c).admxSupportedOnDefinitions =
      st.admxSupportedOnDefinitions := by
  unfold processCategory
  by_cases hb : isBlank c.name = true
  · simp [hb]
  · by_cases hd : containsKey st.allCategories (tns ++ "::" ++ c.name) = true <;>
      simp [hb, hd]

theorem catFold_cats (cs : List CategoryNode) (fn : String) (ns : List (String × String))
    (tns : String) (st : CollectState) :
    (List.foldl (processCategory fn ns tns) st cs).allCategories =
      List.foldl (catMapStep fn ns tns) st.allCategories cs := by
  induction cs generalizing st with
  | nil => rfl
  | cons c cs ih => rw [List.foldl_cons, ih, processCategory_cats, List.foldl_cons]

theorem catFold_pols (cs : List CategoryNode) (fn : String) (ns : List (String × String))
    (tns : String) (st : CollectState) :
    (List.foldl (processCategory fn ns tns) st cs).allPolicies = st.allPolicies := by
  induction cs generalizing st with
  | nil => rfl
  | cons c cs ih => rw [List.foldl_cons, ih, processCategory_pols]

theorem catFold_supps (cs : List CategoryNode) (fn : String) (ns : List (String × String))
    (tns : String) (st : CollectState) :
    (List.foldl (processCategory fn ns tns) st cs).admxSupportedOnDefinitions =
      st.admxSupportedOnDefinitions := by
  induction cs generalizing st with
  | nil => rfl
  | cons c cs ih => rw [List.foldl_cons, ih, processCategory_supps]

theorem processPolicy_pols (fn tns : String) (st : CollectState) (p : PolicyNodeSrc) :
    (processPolicy fn tns st p).allPolicies =
      polMapStep fn tns st.admxSupportedOnDefinitions st.allPolicies p := by
  unfold processPolicy polMapStep
  by_cases hb : isBlank p.name = true
  · simp [hb]
  · cases hpc : p.parentCategoryRef with
    | none =>
      by_cases hd : containsKey st.allPolicies (tns ++ "::" ++ p.name) = true <;>
        simp [hb, hd, hpc]
    | some r =>
      by_cases hr : r = "" <;>
        by_cases hd : containsKey st.allPolicies (tns ++ "::" ++ p.name) = true <;>
          simp [hb, hd, hpc, hr]

theorem processPolicy_cats (fn tns : String) (st : CollectState) (p : PolicyNodeSrc) :
    (processPolicy fn tns st p).allCategories = st.allCategories := by
  unfold processPolicy
  by_cases hb : isBlank p.name = true
  · simp [hb]
  · cases hpc : p.parentCategoryRef with
    | none =>
      by_cases hd : containsKey st.allPolicies (tns ++ "::" ++ p.name) = true <;>
        simp [hb, hd, hpc]
    | some r =>
      by_cases hr : r = "" <;>
        by_cases hd : containsKey st.allPolicies (tns ++ "::" ++ p.name) = true <;>
          simp [hb, hd, hpc, hr]

theorem processPolicy_supps (fn tns : String) (st : CollectState) (p : PolicyNodeSrc) :
    (processPolicy fn tns st p).admxSupportedOnDefinitions =
      st.admxSupportedOnDefinitions := by
  unfold processPolicy
  by_cases hb : isBlank p.name = true
  · simp [hb]
  · cases hpc : p.parentCategoryRef with
    | none =>
      by_cases hd : containsKey st.allPolicies (tns ++ "::" ++ p.name) = true <;>
        simp [hb, hd, hpc]
    | some r =>
      by_cases hr : r = "" <;>
        by_cases hd : containsKey st.allPolicies (tns ++ "::" ++ p.name) = true <;>
          simp [hb, hd, hpc, hr]

theorem polFold_pols (ps : List PolicyNodeSrc) (fn tns : String) (st : CollectState) :
    (List.foldl (processPolicy fn tns) st ps).allPolicies =
      List.foldl (polMapStep fn tns st.admxSupportedOnDefinitions) st.allPolicies ps := by
  induction ps generalizing st with
  | nil => rfl
  | cons p ps ih =>
    rw [List.foldl_cons, ih, processPolicy_pols, processPolicy_supps, List.foldl_cons]

theorem polFold_cats (ps : List PolicyNodeSrc) (fn tns : String) (st : CollectState) :
    (List.foldl (processPolicy fn tns) st ps).allCategories = st.allCategories := by
  induction ps generalizing st with
  | nil => rfl
  | cons p ps ih => rw [List.foldl_cons, ih, processPolicy_cats]

theorem polFold_supps (ps : List PolicyNodeSrc) (fn tns : String) (st : CollectState) :
    (List.foldl (processPolicy fn tns) st ps).admxSupportedOnDefinitions =
      st.admxSupportedOnDefinitions := by
  induction ps generalizing st with
  | nil => rfl
  | cons p ps ih => rw [List.foldl_cons, ih, processPolicy_supps]

theorem processPresentation_cats (fn tns : String) (st : CollectState)
    (pr : PresentationNodeSrc) :
    (processPresentation fn tns st pr).allCategories = st.allCategories := by
  unfold processPresentation
  by_cases hb : isBlank pr.id = true
  · simp [hb]
  · by_cases hd : containsKey st.allPresentations (tns ++ "::" ++ pr.id) = true <;>
      simp [hb, hd]

theorem processPresentation_pols (fn tns : String) (st : CollectState)
    (pr : PresentationNodeSrc) :
    (processPresentation fn tns st pr).allPolicies = st.allPolicies := by
  unfold processPresentation
  by_cases hb : isBlank pr.id = true
  · simp [hb]
  · by_cases hd : containsKey st.allPresentations (tns ++ "::" ++ pr.id) = true <;>
      simp [hb, hd]

theorem processPresentation_supps (fn tns : String) (st : CollectState)
    (pr : PresentationNodeSrc) :
    (processPresentation fn tns st pr).admxSupportedOnDefinitions =
      st.admxSupportedOnDefinitions := by
  unfold processPresentation
  by_cases hb : isBlank pr.id = true
  · simp [hb]
  · by_cases hd : containsKey st.allPresentations (tns ++ "::" ++ pr.id) = true <;>
      simp [hb, hd]

theorem presFold_cats (prs : List PresentationNodeSrc) (fn tns : String) (st : CollectState) :
    (List.foldl (processPresentation fn tns) st prs).allCategories = st.allCategories := by
  induction prs generalizing st with
  | nil => rfl
  | cons pr prs ih => rw [List.foldl_cons, ih, processPresentation_cats]

theorem presFold_pols (prs : List PresentationNodeSrc) (fn tns : String) (st : CollectState) :
    (List.foldl (processPresentation fn tns) st prs).allPolicies = st.allPolicies := by
  induction prs generalizing st with
  | nil => rfl
  | cons pr prs ih => rw [List.foldl_cons, ih, processPresentation_pols]

theorem presFold_supps (prs : List PresentationNodeSrc) (fn tns : String) (st : CollectState) :
    (List.foldl (processPresentation fn tns) st prs).admxSupportedOnDefinitions =
      st.admxSupportedOnDefinitions := by
  induction prs generalizing st with
  | nil => rfl
  | cons pr prs ih => rw [List.foldl_cons, ih, processPresentation_supps]

theorem sectionFold_cats {α : Type} (w : String) (step : CollectState → α → CollectState)
    (st : CollectState) (l : List α) :
    (sectionFold w step st l).allCategories = (List.foldl step st l).allCategories := by
  cases l <;> rfl

theorem sectionFold_pols {α : Type} (w : String) (step : CollectState → α → CollectState)
    (st : CollectState) (l : List α) :
    (sectionFold w step st l).allPolicies = (List.foldl step st l).allPolicies := by
  cases l <;> rfl

theorem sectionFold_supps {α : Type} (w : String) (step : CollectState → α → CollectState)
    (st : CollectState) (l : List α) :
    (sectionFold w step st l).admxSupportedOnDefinitions =
      (List.foldl step st l).admxSupportedOnDefinitions := by
  cases l <;> rfl

theorem processFile_supps (st : CollectState) (f : AdmxFileSrc) :
    (processFile st f).admxSupportedOnDefinitions =
      fileSupps f st.admxSupportedOnDefinitions := by
  unfold processFile fileSupps
  by_cases hcr : fileCrashes f = true
  · have hp : ¬ (fileProcessed f = true) := by simp [fileProcessed, hcr]
    rw [if_pos hcr, if_neg hp]
  · have hcf : fileCrashes f = false := by revert hcr; cases fileCrashes f <;> simp
    rw [if_neg hcr]
    by_cases hok : fileTargetOk f = true
    · have hp : fileProcessed f = true := by simp [fileProcessed, hcf, hok]
      rw [if_pos hok, if_pos hp]
      simp only [sectionFold_supps, presFold_supps, polFold_supps, catFold_supps,
        suppFold_supps]
    · have hp : ¬ (fileProcessed f = true) := by simp [fileProcessed, hok]
      rw [if_neg hok, if_neg hp]

theorem processFile_cats (st : CollectState) (f : AdmxFileSrc) :
    (processFile st f).allCategories = fileCats f st.allCategories := by
  unfold processFile fileCats
  by_cases hcr : fileCrashes f = true
  · have hp : ¬ (fileProcessed f = true) := by simp [fileProcessed, hcr]
    rw [if_pos hcr, if_neg hp]
  · have hcf : fileCrashes f = false := by revert hcr; cases fileCrashes f <;> simp
    rw [if_neg hcr]
    by_cases hok : fileTargetOk f = true
    · have hp : fileProcessed f = true := by simp [fileProcessed, hcf, hok]
      rw [if_pos hok, if_pos hp]
      simp only [sectionFold_cats, presFold_cats, polFold_cats, catFold_cats, suppFold_cats]
    · have hp : ¬ (fileProcessed f = true) := by simp [fileProcessed, hok]
      rw [if_neg hok, if_neg hp]

theorem processFile_pols (st : CollectState) (f : AdmxFileSrc) :
    (processFile st f).allPolicies =
      filePols f (fileSupps f st.admxSupportedOnDefinitions) st.allPolicies := by
  unfold processFile filePols fileSupps
  by_cases hcr : fileCrashes f = true
  · have hp : ¬ (fileProcessed f = true) := by simp [fileProcessed, hcr]
    rw [if_pos hcr, if_neg hp]
  · have hcf : fileCrashes f = false := by revert hcr; cases fileCrashes f <;> simp
    rw [if_neg hcr]
    by_cases hok : fileTargetOk f = true
    · have hp : fileProcessed f = true := by simp [fileProcessed, hcf, hok]
      rw [if_pos hok, if_pos hp, if_pos hp]
      simp only [sectionFold_pols, sectionFold_supps, presFold_pols, polFold_pols,
        catFold_supps, suppFold_supps, catFold_pols, suppFold_pols]
    · have hp : ¬ (fileProcessed f = true) := by simp [fileProcessed, hok]
      rw [if_neg hok, if_neg hp]

/-! ## Where each map entry of Step 1 comes from -/

theorem suppFoldMap_frame (ds : List SuppDefNode)
    (s : List (String × SupportedOnDefinition)) (n : String)
    (hn : ∀ d ∈ ds, isBlank d.name = false → d.name ≠ n) :
    lookupL (List.foldl suppMapStep s ds) n = lookupL s n := by
  induction ds generalizing s with
  | nil => rfl
  | cons d ds ih =>
    rw [List.foldl_cons, ih _ (fun e he hb => hn e (List.mem_cons_of_mem d he) hb)]
    unfold suppMapStep
    by_cases hb : isBlank d.name = true
    · rw [if_pos hb]
    · rw [if_neg hb]
      by_cases hc : containsKey s d.name = true
      · rw [if_pos hc]
      · rw [if_neg hc, lookupL_append]
        have hbf : isBlank d.name = false := by
          revert hb
          cases isBlank d.name <;> simp
        have hdn : d.name ≠ n := hn d (List.mem_cons_self d ds) hbf
        cases hs : lookupL s n with
        | some v => rfl
        | none => simp [lookupL, hdn]

theorem suppFoldMap_agree (ds : List SuppDefNode)
    (s t : List (String × SupportedOnDefinition)) (n : String)
    (h : lookupL s n = lookupL t n) :
    lookupL (List.foldl suppMapStep s ds) n = lookupL (List.foldl suppMapStep t ds) n := by
  induction ds generalizing s t with
  | nil => exact h
  | cons d ds ih =>
    rw [List.foldl_cons, List.foldl_cons]
    refine ih _ _ ?_
    unfold suppMapStep
    by_cases hb : isBlank d.name = true
    · rw [if_pos hb, if_pos hb]
      exact h
    · rw [if_neg hb, if_neg hb]
      by_cases hdn : d.name = n
      · subst hdn
        have hck : containsKey s d.name = containsKey t d.name := by
          unfold containsKey
          rw [h]
        by_cases hc : containsKey s d.name = true
        · rw [if_pos hc, if_pos (hck ▸ hc)]
          exact h
        · rw [if_neg hc, if_neg (fun hh => hc (hck ▸ hh))]
          rw [lookupL_append, lookupL_append, h]
      · by_cases hc : containsKey s d.name = true
        · by_cases hc2 : containsKey t d.name = true
          · rw [if_pos hc, if_pos hc2]
            exact h
          · rw [if_pos hc, if_neg hc2, lookupL_append]
            cases ht : lookupL t n with
            | some v => rw [h, ht]
            | none =>
              rw [h, ht]
              simp [lookupL, hdn]
        · by_cases hc2 : containsKey t d.name = true
          · rw [if_neg hc, if_pos hc2, lookupL_append]
            cases hs : lookupL s n with
            | some v =>
              rw [h] at hs
              rw [hs]
            | none =>
              rw [h] at hs
              rw [hs]
              simp [lookupL, hdn]
          · rw [if_neg hc, if_neg hc2, lookupL_append, lookupL_append, h]

theorem suppFoldMap_keys (ds : List SuppDefNode)
    (s : List (String × SupportedOnDefinition)) (n : String)
    (h : containsKey (List.foldl suppMapStep s ds) n = true) :
    containsKey s n = true ∨ ∃ d ∈ ds, isBlank d.name = false ∧ d.name = n := by
  induction ds generalizing s with
  | nil => exact Or.inl h
  | cons d ds ih =>
    rw [List.foldl_cons] at h
    rcases ih _ h with h1 | h2
    · unfold suppMapStep at h1
      by_cases hb : isBlank d.name = true
      · rw [if_pos hb] at h1
        exact Or.inl h1
      · rw [if_neg hb] at h1
        by_cases hc : containsKey s d.name = true
        · rw [if_pos hc] at h1
          exact Or.inl h1
        · rw [if_neg hc] at h1
          by_cases hdn : d.name = n
          · have hbf : isBlank d.name = false := by
              revert hb
              cases isBlank d.name <;> simp
            exact Or.inr ⟨d, List.mem_cons_self d ds, hbf, hdn⟩
          · left
            unfold containsKey at h1 ⊢
            rw [lookupL_append] at h1
            cases hs : lookupL s n with
            | some v => simp [hs]
            | none =>
              rw [hs] at h1
              simp [lookupL, hdn] at h1
    · obtain ⟨e, he, hbe, hne⟩ := h2
      exact Or.inr ⟨e, List.mem_cons_of_mem d he, hbe, hne⟩

theorem fileSupps_frame (f : AdmxFileSrc) (s : List (String × SupportedOnDefinition))
    (n : String) (hn : n ∉ fileSuppNames f) :
    lookupL (fileSupps f s) n = lookupL s n := by
  unfold fileSupps
  by_cases hok : fileProcessed f = true
  · rw [if_pos hok]
    refine suppFoldMap_frame _ _ _ ?_
    intro d hd hb hdn
    apply hn
    unfold fileSuppNames
    rw [if_pos hok]
    refine List.mem_map.mpr ⟨d, ?_, hdn⟩
    refine List.mem_filter.mpr ⟨hd, by simp [hb]⟩
  · rw [if_neg hok]

theorem fileSupps_agree (f : AdmxFileSrc) (s t : List (String × SupportedOnDefinition))
    (n : String) (h : lookupL s n = lookupL t n) :
    lookupL (fileSupps f s) n = lookupL (fileSupps f t) n := by
  unfold fileSupps
  by_cases hok : fileProcessed f = true
  · rw [if_pos hok, if_pos hok]
    exact suppFoldMap_agree _ _ _ _ h
  · rw [if_neg hok, if_neg hok]
    exact h

theorem fileSupps_keys (f : AdmxFileSrc) (s : List (String × SupportedOnDefinition))
    (n : String) (h : containsKey (fileSupps f s) n = true) :
    containsKey s n = true ∨ n ∈ fileSuppNames f := by
  unfold fileSupps at h
  by_cases hok : fileProcessed f = true
  · rw [if_pos hok] at h
    rcases suppFoldMap_keys _ _ _ h with h1 | h2
    · exact Or.inl h1
    · obtain ⟨d, hd, hbd, hdn⟩ := h2
      right
      unfold fileSuppNames
      rw [if_pos hok]
      refine List.mem_map.mpr ⟨d, ?_, hdn⟩
      refine List.mem_filter.mpr ⟨hd, by simp [hbd]⟩
  · rw [if_neg hok] at h
    exact Or.inl h

theorem collectFold_supps_frame (files : List AdmxFileSrc) (st : CollectState) (n : String)
    (hn : ∀ f ∈ files, n ∉ fileSuppNames f) :
    lookupL (List.foldl processFile st files).admxSupportedOnDefinitions n =
      lookupL st.admxSupportedOnDefinitions n := by
  induction files generalizing st with
  | nil => rfl
  | cons g rest ih =>
    rw [List.foldl_cons, ih _ (fun f hf => hn f (List.mem_cons_of_mem g hf)),
      processFile_supps]
    exact fileSupps_frame g _ n (hn g (List.mem_cons_self g rest))

theorem collect_supps_lookup (files : List AdmxFileSrc) (st : CollectState) (n : String)
    (hdisj : files.Pairwise (fun f g => ∀ m, m ∈ fileSuppNames f → m ∉ fileSuppNames g))
    (hst : ∀ f ∈ files, ∀ m ∈ fileSuppNames f,
      containsKey st.admxSupportedOnDefinitions m = false) :
    lookupL (List.foldl processFile st files).admxSupportedOnDefinitions n =
      match files.find? (fun f => decide (n ∈ fileSuppNames f)) with
      | some f => lookupL (fileSupps f []) n
      | none => lookupL st.admxSupportedOnDefinitions n := by
  induction files generalizing st with
  | nil => rfl
  | cons g rest ih =>
    have hpair := List.pairwise_cons.mp hdisj
    by_cases hg : n ∈ fileSuppNames g
    · have hfind : (g :: rest).find? (fun f => decide (n ∈ fileSuppNames f)) = some g :=
        List.find?_cons_of_pos _ (by simp [hg])
      rw [hfind, List.foldl_cons]
      have hnin : ∀ f ∈ rest, n ∉ fileSuppNames f := fun f hf => hpair.1 f hf n hg
      rw [collectFold_supps_frame rest _ n hnin, processFile_supps]
      refine fileSupps_agree g _ _ n ?_
      have h0 : containsKey st.admxSupportedOnDefinitions n = false :=
        hst g (List.mem_cons_self g rest) n hg
      unfold containsKey at h0
      cases hs : lookupL st.admxSupportedOnDefinitions n with
      | some v => simp [hs] at h0
      | none => rfl
    · have hfind : (g :: rest).find? (fun f => decide (n ∈ fileSuppNames f)) =
          rest.find? (fun f => decide (n ∈ fileSuppNames f)) :=
        List.find?_cons_of_neg _ (by simp [hg])
      rw [hfind, List.foldl_cons]
      have hst2 : ∀ f ∈ rest, ∀ m ∈ fileSuppNames f,
          containsKey (processFile st g).admxSupportedOnDefinitions m = false := by
        intro f hf m hm
        rw [processFile_supps]
        by_contra hc
        have hc2 : containsKey (fileSupps g st.admxSupportedOnDefinitions) m = true := by
          cases hcc : containsKey (fileSupps g st.admxSupportedOnDefinitions) m
          · exact absurd hcc hc
          · rfl
        rcases fileSupps_keys g _ m hc2 with h1 | h2
        · have := hst f (List.mem_cons_of_mem g hf) m hm
          rw [this] at h1
          exact Bool.noConfusion h1
        · exact hpair.1 f hf m h2 hm
      rw [ih (processFile st g) hpair.2 hst2]
      cases hf2 : rest.find? (fun f => decide (n ∈ fileSuppNames f)) with
      | some f => rfl
      | none =>
        rw [processFile_supps]
        exact fileSupps_frame g _ n hg

theorem catFoldMap_frame (cs : List CategoryNode) (fn : String)
    (ns : List (String × String)) (tns : String) (s : CMap) (i : String)
    (hn : ∀ c ∈ cs, isBlank c.name = false → tns ++ "::" ++ c.name ≠ i) :
    lookupL (List.foldl (catMapStep fn ns tns) s cs) i = lookupL s i := by
  induction cs generalizing s with
  | nil => rfl
  | cons c cs ih =>
    rw [List.foldl_cons, ih _ (fun e he hb => hn e (List.mem_cons_of_mem c he) hb)]
    unfold catMapStep
    by_cases hb : isBlank c.name = true
    · rw [if_pos hb]
    · rw [if_neg hb, lookupL_setL]
      have hbf : isBlank c.name = false := by
        revert hb
        cases isBlank c.name <;> simp
      rw [if_neg (hn c (List.mem_cons_self c cs) hbf)]

theorem catFoldMap_agree (cs : List CategoryNode) (fn : String)
    (ns : List (String × String)) (tns : String) (sA sB : CMap) (i : String)
    (h : lookupL sA i = lookupL sB i) :
    lookupL (List.foldl (catMapStep fn ns tns) sA cs) i =
      lookupL (List.foldl (catMapStep fn ns tns) sB cs) i := by
  induction cs generalizing sA sB with
  | nil => exact h
  | cons c cs ih =>
    rw [List.foldl_cons, List.foldl_cons]
    refine ih _ _ ?_
    unfold catMapStep
    by_cases hb : isBlank c.name = true
    · rw [if_pos hb, if_pos hb]
      exact h
    · rw [if_neg hb, if_neg hb, lookupL_setL, lookupL_setL]
      by_cases hi : tns ++ "::" ++ c.name = i
      · rw [if_pos hi, if_pos hi]
      · rw [if_neg hi, if_neg hi]
        exact h

theorem catFoldMap_keys (cs : List CategoryNode) (fn : String)
    (ns : List (String × String)) (tns : String) (s : CMap) (i : String)
    (h : containsKey (List.foldl (catMapStep fn ns tns) s cs) i = true) :
    containsKey s i = true ∨
      ∃ c ∈ cs, isBlank c.name = false ∧ tns ++ "::" ++ c.name = i := by
  induction cs generalizing s with
  | nil => exact Or.inl h
  | cons c cs ih =>
    rw [List.foldl_cons] at h
    rcases ih _ h with h1 | h2
    · unfold catMapStep at h1
      by_cases hb : isBlank c.name = true
      · rw [if_pos hb] at h1
        exact Or.inl h1
      · rw [if_neg hb] at h1
        rw [containsKey_setL] at h1
        by_cases hi : tns ++ "::" ++ c.name = i
        · have hbf : isBlank c.name = false := by
            revert hb
            cases isBlank c.name <;> simp
          exact Or.inr ⟨c, List.mem_cons_self c cs, hbf, hi⟩
        · rw [if_neg hi] at h1
          exact Or.inl h1
    · obtain ⟨e, he, hbe, hie⟩ := h2
      exact Or.inr ⟨e, List.mem_cons_of_mem c he, hbe, hie⟩

theorem fileCats_frame (f : AdmxFileSrc) (s : CMap) (i : String)
    (hn : i ∉ fileCatIds f) :
    lookupL (fileCats f s) i = lookupL s i := by
  unfold fileCats
  by_cases hok : fileProcessed f = true
  · rw [if_pos hok]
    refine catFoldMap_frame _ _ _ _ _ _ ?_
    intro c hc hb hci
    apply hn
    unfold fileCatIds
    rw [if_pos hok]
    refine List.mem_map.mpr ⟨c, List.mem_filter.mpr ⟨hc, by simp [hb]⟩, hci⟩
  · rw [if_neg hok]

theorem fileCats_agree (f : AdmxFileSrc) (sA sB : CMap) (i : String)
    (h : lookupL sA i = lookupL sB i) :
    lookupL (fileCats f sA) i = lookupL (fileCats f sB) i := by
  unfold fileCats
  by_cases hok : fileProcessed f = true
  · rw [if_pos hok, if_pos hok]
    exact catFoldMap_agree _ _ _ _ _ _ _ h
  · rw [if_neg hok, if_neg hok]
    exact h

theorem fileCats_keys (f : AdmxFileSrc) (s : CMap) (i : String)
    (h : containsKey (fileCats f s) i = true) :
    containsKey s i = true ∨ i ∈ fileCatIds f := by
  unfold fileCats at h
  by_cases hok : fileProcessed f = true
  · rw [if_pos hok] at h
    rcases catFoldMap_keys _ _ _ _ _ _ h with h1 | h2
    · exact Or.inl h1
    · obtain ⟨c, hc, hbc, hic⟩ := h2
      right
      unfold fileCatIds
      rw [if_pos hok]
      exact List.mem_map.mpr ⟨c, List.mem_filter.mpr ⟨hc, by simp [hbc]⟩, hic⟩
  · rw [if_neg hok] at h
    exact Or.inl h

theorem collectFold_cats_frame (files : List AdmxFileSrc) (st : CollectState) (i : String)
    (hn : ∀ f ∈ files, i ∉ fileCatIds f) :
    lookupL (List.foldl processFile st files).allCategories i =
      lookupL st.allCategories i := by
  induction files generalizing st with
  | nil => rfl
  | cons g rest ih =>
    rw [List.foldl_cons, ih _ (fun f hf => hn f (List.mem_cons_of_mem g hf)),
      processFile_cats]
    exact fileCats_frame g _ i (hn g (List.mem_cons_self g rest))

theorem collect_cats_lookup (files : List AdmxFileSrc) (st : CollectState) (i : String)
    (hdisj : files.Pairwise (fun f g => ∀ m, m ∈ fileCatIds f → m ∉ fileCatIds g))
    (hst : ∀ f ∈ files, ∀ m ∈ fileCatIds f, containsKey st.allCategories m = false) :
    lookupL (List.foldl processFile st files).allCategories i =
      match files.find? (fun f => decide (i ∈ fileCatIds f)) with
      | some f => lookupL (fileCats f []) i
      | none => lookupL st.allCategories i := by
  induction files generalizing st with
  | nil => rfl
  | cons g rest ih =>
    have hpair := List.pairwise_cons.mp hdisj
    by_cases hg : i ∈ fileCatIds g
    · have hfind : (g :: rest).find? (fun f => decide (i ∈ fileCatIds f)) = some g :=
        List.find?_cons_of_pos _ (by simp [hg])
      rw [hfind, List.foldl_cons]
      have hnin : ∀ f ∈ rest, i ∉ fileCatIds f := fun f hf => hpair.1 f hf i hg
      rw [collectFold_cats_frame rest _ i hnin, processFile_cats]
      refine fileCats_agree g _ _ i ?_
      have h0 : containsKey st.allCategories i = false :=
        hst g (List.mem_cons_self g rest) i hg
      unfold containsKey at h0
      cases hs : lookupL st.allCategories i with
      | some v => simp [hs] at h0
      | none => rfl
    · have hfind : (g :: rest).find? (fun f => decide (i ∈ fileCatIds f)) =
          rest.find? (fun f => decide (i ∈ fileCatIds f)) :=
        List.find?_cons_of_neg _ (by simp [hg])
      rw [hfind, List.foldl_cons]
      have hst2 : ∀ f ∈ rest, ∀ m ∈ fileCatIds f,
          containsKey (processFile st g).allCategories m = false := by
        intro f hf m hm
        rw [processFile_cats]
        by_contra hc
        have hc2 : containsKey (fileCats g st.allCategories) m = true := by
          cases hcc : containsKey (fileCats g st.allCategories) m
          · exact absurd hcc hc
          · rfl
        rcases fileCats_keys g _ m hc2 with h1 | h2
        · have := hst f (List.mem_cons_of_mem g hf) m hm
          rw [this] at h1
          exact Bool.noConfusion h1
        · exact hpair.1 f hf m h2 hm
      rw [ih (processFile st g) hpair.2 hst2]
      cases hf2 : rest.find? (fun f => decide (i ∈ fileCatIds f)) with
      | some f => rfl
      | none =>
        rw [processFile_cats]
        exact fileCats_frame g _ i hg

theorem mkPolicyVal_agree (fn tns : String) (p : PolicyNodeSrc)
    (s1 s2 : List (String × SupportedOnDefinition))
    (h : ∀ r, p.supportedOn = some r → lookupL s1 r = lookupL s2 r) :
    mkPolicyVal fn tns s1 p = mkPolicyVal fn tns s2 p := by
  unfold mkPolicyVal ProcessSupportedOn
  cases hso : p.supportedOn with
  | none => rfl
  | some r => simp [h r hso]

theorem polFoldMap_frame (ps : List PolicyNodeSrc) (fn tns : String)
    (supps : List (String × SupportedOnDefinition)) (s : PMap) (i : String)
    (hn : ∀ p ∈ ps, isBlank p.name = false → tns ++ "::" ++ p.name ≠ i) :
    lookupL (List.foldl (polMapStep fn tns supps) s ps) i = lookupL s i := by
  induction ps generalizing s with
  | nil => rfl
  | cons p ps ih =>
    rw [List.foldl_cons, ih _ (fun e he hb => hn e (List.mem_cons_of_mem p he) hb)]
    unfold polMapStep
    by_cases hb : isBlank p.name = true
    · rw [if_pos hb]
    · rw [if_neg hb, lookupL_setL]
      have hbf : isBlank p.name = false := by
        revert hb
        cases isBlank p.name <;> simp
      rw [if_neg (hn p (List.mem_cons_self p ps) hbf)]

theorem polFoldMap_agree (ps : List PolicyNodeSrc) (fn tns : String)
    (s1 s2 : List (String × SupportedOnDefinition)) (pA pB : PMap) (i : String)
    (h : lookupL pA i = lookupL pB i)
    (hsup : ∀ p ∈ ps, isBlank p.name = false →
      ∀ r, p.supportedOn = some r → lookupL s1 r = lookupL s2 r) :
    lookupL (List.foldl (polMapStep fn tns s1) pA ps) i =
      lookupL (List.foldl (polMapStep fn tns s2) pB ps) i := by
  induction ps generalizing pA pB with
  | nil => exact h
  | cons p ps ih =>
    rw [List.foldl_cons, List.foldl_cons]
    refine ih _ _ ?_ (fun e he hb r hr => hsup e (List.mem_cons_of_mem p he) hb r hr)
    unfold polMapStep
    by_cases hb : isBlank p.name = true
    · rw [if_pos hb, if_pos hb]
      exact h
    · rw [if_neg hb, if_neg hb, lookupL_setL, lookupL_setL]
      have hbf : isBlank p.name = false := by
        revert hb
        cases isBlank p.name <;> simp
      by_cases hi : tns ++ "::" ++ p.name = i
      · rw [if_pos hi, if_pos hi,
          mkPolicyVal_agree fn tns p s1 s2 (hsup p (List.mem_cons_self p ps) hbf)]
      · rw [if_neg hi, if_neg hi]
        exact h

theorem polFoldMap_keys (ps : List PolicyNodeSrc) (fn tns : String)
    (supps : List (String × SupportedOnDefinition)) (s : PMap) (i : String)
    (h : containsKey (List.foldl (polMapStep fn tns supps) s ps) i = true) :
    containsKey s i = true ∨
      ∃ p ∈ ps, isBlank p.name = false ∧ tns ++ "::" ++ p.name = i := by
  induction ps generalizing s with
  | nil => exact Or.inl h
  | cons p ps ih =>
    rw [List.foldl_cons] at h
    rcases ih _ h with h1 | h2
    · unfold polMapStep at h1
      by_cases hb : isBlank p.name = true
      · rw [if_pos hb] at h1
        exact Or.inl h1
      · rw [if_neg hb] at h1
        rw [containsKey_setL] at h1
        by_cases hi : tns ++ "::" ++ p.name = i
        · have hbf : isBlank p.name = false := by
            revert hb
            cases isBlank p.name <;> simp
          exact Or.inr ⟨p, List.mem_cons_self p ps, hbf, hi⟩
        · rw [if_neg hi] at h1
          exact Or.inl h1
    · obtain ⟨e, he, hbe, hie⟩ := h2
      exact Or.inr ⟨e, List.mem_cons_of_mem p he, hbe, hie⟩

theorem filePols_frame (f : AdmxFileSrc) (supps : List (String × SupportedOnDefinition))
    (s : PMap) (i : String) (hn : i ∉ filePolIds f) :
    lookupL (filePols f supps s) i = lookupL s i := by
  unfold filePols
  by_cases hok : fileProcessed f = true
  · rw [if_pos hok]
    refine polFoldMap_frame _ _ _ _ _ _ ?_
    intro p hp hb hpi
    apply hn
    unfold filePolIds
    rw [if_pos hok]
    exact List.mem_map.mpr ⟨p, List.mem_filter.mpr ⟨hp, by simp [hb]⟩, hpi⟩
  · rw [if_neg hok]

theorem filePols_agree (f : AdmxFileSrc)
    (s1 s2 : List (String × SupportedOnDefinition)) (pA pB : PMap) (i : String)
    (h : lookupL pA i = lookupL pB i)
    (hsup : ∀ r ∈ filePolRefs f, lookupL s1 r = lookupL s2 r) :
    lookupL (filePols f s1 pA) i = lookupL (filePols f s2 pB) i := by
  unfold filePols
  by_cases hok : fileProcessed f = true
  · rw [if_pos hok, if_pos hok]
    refine polFoldMap_agree _ _ _ _ _ _ _ _ h ?_
    intro p hp hb r hr
    refine hsup r ?_
    unfold filePolRefs
    rw [if_pos hok]
    refine List.mem_filterMap.mpr ⟨p, List.mem_filter.mpr ⟨hp, by simp [hb]⟩, hr⟩
  · rw [if_neg hok, if_neg hok]
    exact h

theorem filePols_keys (f : AdmxFileSrc) (supps : List (String × SupportedOnDefinition))
    (s : PMap) (i : String) (h : containsKey (filePols f supps s) i = true) :
    containsKey s i = true ∨ i ∈ filePolIds f := by
  unfold filePols at h
  by_cases hok : fileProcessed f = true
  · rw [if_pos hok] at h
    rcases polFoldMap_keys _ _ _ _ _ _ h with h1 | h2
    · exact Or.inl h1
    · obtain ⟨p, hp, hbp, hip⟩ := h2
      right
      unfold filePolIds
      rw [if_pos hok]
      exact List.mem_map.mpr ⟨p, List.mem_filter.mpr ⟨hp, by simp [hbp]⟩, hip⟩
  · rw [if_neg hok] at h
    exact Or.inl h

theorem collectFold_pols_frame (files : List AdmxFileSrc) (st : CollectState) (i : String)
    (hn : ∀ f ∈ files, i ∉ filePolIds f) :
    lookupL (List.foldl processFile st files).allPolicies i =
      lookupL st.allPolicies i := by
  induction files generalizing st with
  | nil => rfl
  | cons g rest ih =>
    rw [List.foldl_cons, ih _ (fun f hf => hn f (List.mem_cons_of_mem g hf)),
      processFile_pols]
    exact filePols_frame g _ _ i (hn g (List.mem_cons_self g rest))

theorem collect_pols_lookup (files : List AdmxFileSrc) (st : CollectState) (i : String)
    (hdisjP : files.Pairwise (fun f g => ∀ m, m ∈ filePolIds f → m ∉ filePolIds g))
    (hdisjS : files.Pairwise (fun f g => ∀ m, m ∈ fileSuppNames f → m ∉ fileSuppNames g))
    (hstP : ∀ f ∈ files, ∀ m ∈ filePolIds f, containsKey st.allPolicies m = false)
    (hstS : ∀ f ∈ files, ∀ m ∈ fileSuppNames f,
      containsKey st.admxSupportedOnDefinitions m = false)
    (hloc : ∀ f ∈ files, ∀ r ∈ filePolRefs f,
      r ∈ fileSuppNames f ∨
        (containsKey st.admxSupportedOnDefinitions r = false ∧
          ∀ g ∈ files, r ∉ fileSuppNames g)) :
    lookupL (List.foldl processFile st files).allPolicies i =
      match files.find? (fun f => decide (i ∈ filePolIds f)) with
      | some f => lookupL (filePols f (fileSupps f []) []) i
      | none => lookupL st.allPolicies i := by
  induction files generalizing st with
  | nil => rfl
  | cons g rest ih =>
    have hpair := List.pairwise_cons.mp hdisjP
    have hpairS := List.pairwise_cons.mp hdisjS
    have hsuppAgree : ∀ r ∈ filePolRefs g,
        lookupL (fileSupps g st.admxSupportedOnDefinitions) r = lookupL (fileSupps g []) r := by
      intro r hr
      refine fileSupps_agree g _ _ r ?_
      have h0 : containsKey st.admxSupportedOnDefinitions r = false := by
        rcases hloc g (List.mem_cons_self g rest) r hr with h1 | h2
        · exact hstS g (List.mem_cons_self g rest) r h1
        · exact h2.1
      unfold containsKey at h0
      cases hs : lookupL st.admxSupportedOnDefinitions r with
      | some v => simp [hs] at h0
      | none => rfl
    by_cases hg : i ∈ filePolIds g
    · have hfind : (g :: rest).find? (fun f => decide (i ∈ filePolIds f)) = some g :=
        List.find?_cons_of_pos _ (by simp [hg])
      rw [hfind, List.foldl_cons]
      have hnin : ∀ f ∈ rest, i ∉ filePolIds f := fun f hf => hpair.1 f hf i hg
      rw [collectFold_pols_frame rest _ i hnin, processFile_pols]
      refine filePols_agree g _ _ _ _ i ?_ hsuppAgree
      have h0 : containsKey st.allPolicies i = false :=
        hstP g (List.mem_cons_self g rest) i hg
      unfold containsKey at h0
      cases hs : lookupL st.allPolicies i with
      | some v => simp [hs] at h0
      | none => rfl
    · have hfind : (g :: rest).find? (fun f => decide (i ∈ filePolIds f)) =
          rest.find? (fun f => decide (i ∈ filePolIds f)) :=
        List.find?_cons_of_neg _ (by simp [hg])
      rw [hfind, List.foldl_cons]
      have hsuppKey : ∀ m, containsKey (processFile st g).admxSupportedOnDefinitions m = true →
          containsKey st.admxSupportedOnDefinitions m = true ∨ m ∈ fileSuppNames g := by
        intro m hm
        rw [processFile_supps] at hm
        exact fileSupps_keys g _ m hm
      have hstP2 : ∀ f ∈ rest, ∀ m ∈ filePolIds f,
          containsKey (processFile st g).allPolicies m = false := by
        intro f hf m hm
        rw [processFile_pols]
        by_contra hc
        have hc2 : containsKey (filePols g (fileSupps g st.admxSupportedOnDefinitions)
            st.allPolicies) m = true := by
          cases hcc : containsKey (filePols g (fileSupps g st.admxSupportedOnDefinitions)
              st.allPolicies) m
          · exact absurd hcc hc
          · rfl
        rcases filePols_keys g _ _ m hc2 with h1 | h2
        · have := hstP f (List.mem_cons_of_mem g hf) m hm
          rw [this] at h1
          exact Bool.noConfusion h1
        · exact hpair.1 f hf m h2 hm
      have hstS2 : ∀ f ∈ rest, ∀ m ∈ fileSuppNames f,
          containsKey (processFile st g).admxSupportedOnDefinitions m = false := by
        intro f hf m hm
        by_contra hc
        have hc2 : containsKey (processFile st g).admxSupportedOnDefinitions m = true := by
          cases hcc : containsKey (processFile st g).admxSupportedOnDefinitions m
          · exact absurd hcc hc
          · rfl
        rcases hsuppKey m hc2 with h1 | h2
        · have := hstS f (List.mem_cons_of_mem g hf) m hm
          rw [this] at h1
          exact Bool.noConfusion h1
        · exact hpairS.1 f hf m h2 hm
      have hloc2 : ∀ f ∈ rest, ∀ r ∈ filePolRefs f,
          r ∈ fileSuppNames f ∨
            (containsKey (processFile st g).admxSupportedOnDefinitions r = false ∧
              ∀ g2 ∈ rest, r ∉ fileSuppNames g2) := by
        intro f hf r hr
        rcases hloc f (List.mem_cons_of_mem g hf) r hr with h1 | h2
        · exact Or.inl h1
        · right
          constructor
          · by_contra hc
            have hc2 : containsKey (processFile st g).admxSupportedOnDefinitions r = true := by
              cases hcc : containsKey (processFile st g).admxSupportedOnDefinitions r
              · exact absurd hcc hc
              · rfl
            rcases hsuppKey r hc2 with h3 | h4
            · rw [h2.1] at h3
              exact Bool.noConfusion h3
            · exact h2.2 g (List.mem_cons_self g rest) h4
          · exact fun g2 hg2 => h2.2 g2 (List.mem_cons_of_mem g hg2)
      rw [ih (processFile st g) hpair.2 hpairS.2 hstP2 hstS2 hloc2]
      cases hf2 : rest.find? (fun f => decide (i ∈ filePolIds f)) with
      | some f => rfl
      | none =>
        rw [processFile_pols]
        exact filePols_frame g _ _ i hg

/-! ## Order-independence of the collection (under disjointness) -/

theorem find?_eq_of_perm {α : Type} (p : α → Bool) {l1 l2 : List α} (h : l1.Perm l2)
    (huniq : ∀ a ∈ l1, ∀ b ∈ l1, p a = true → p b = true → a = b) :
    l1.find? p = l2.find? p := by
  cases hf : l1.find? p with
  | some f =>
    have hmem := List.mem_of_find?_eq_some hf
    have hpf := List.find?_some hf
    cases hf2 : l2.find? p with
    | some f2 =>
      have hmem2 := h.mem_iff.mpr (List.mem_of_find?_eq_some hf2)
      have hpf2 := List.find?_some hf2
      exact congrArg some (huniq f hmem f2 hmem2 hpf hpf2)
    | none =>
      have hall := List.find?_eq_none.mp hf2
      exact absurd hpf (hall f (h.mem_iff.mp hmem))
  | none =>
    cases hf2 : l2.find? p with
    | some f2 =>
      have hall := List.find?_eq_none.mp hf
      exact absurd (List.find?_some hf2)
        (hall f2 (h.mem_iff.mpr (List.mem_of_find?_eq_some hf2)))
    | none => rfl

theorem disjoint_names_unique {α : Type} (N : α → List String) {l : List α}
    (h : l.Pairwise (fun f g => ∀ m, m ∈ N f → m ∉ N g)) (n : String) :
    ∀ a ∈ l, ∀ b ∈ l, decide (n ∈ N a) = true → decide (n ∈ N b) = true → a = b := by
  intro a ha b hb hna hnb
  rw [decide_eq_true_eq] at hna hnb
  by_cases hab : a = b
  · exact hab
  · exfalso
    have hsym : Symmetric (fun f g : α => ∀ m, m ∈ N f → m ∉ N g) := by
      intro f g hfg m hmg hmf
      exact hfg m hmf hmg
    exact (List.Pairwise.forall hsym h) ha hb hab n hna hnb

theorem symm_disjoint {α : Type} (N : α → List String) :
    Symmetric (fun f g : α => ∀ m, m ∈ N f → m ∉ N g) := by
  intro f g hfg m hmg hmf
  exact hfg m hmf hmg

/-- C5 amended, part 1: the hypotheses under which the collected global
maps are order-independent, transported along a permutation of the file
list. -/
theorem collect_lookup_perm (files1 files2 : List AdmxFileSrc) (i : String)
    (hperm : files1.Perm files2)
    (hdisjP : files1.Pairwise (fun f g => ∀ m, m ∈ filePolIds f → m ∉ filePolIds g))
    (hdisjS : files1.Pairwise (fun f g => ∀ m, m ∈ fileSuppNames f → m ∉ fileSuppNames g))
    (hdisjC : files1.Pairwise (fun f g => ∀ m, m ∈ fileCatIds f → m ∉ fileCatIds g))
    (hloc : ∀ f ∈ files1, ∀ r ∈ filePolRefs f,
      r ∈ fileSuppNames f ∨ ∀ g ∈ files1, r ∉ fileSuppNames g) :
    lookupL (collectAll files1).allPolicies i = lookupL (collectAll files2).allPolicies i ∧
    lookupL (collectAll files1).allCategories i =
      lookupL (collectAll files2).allCategories i ∧
    lookupL (collectAll files1).admxSupportedOnDefinitions i =
      lookupL (collectAll files2).admxSupportedOnDefinitions i := by
  have hdisjP2 := (hperm.pairwise_iff (fun h m hmg hmf => h m hmf hmg)).mp hdisjP
  have hdisjS2 := (hperm.pairwise_iff (fun h m hmg hmf => h m hmf hmg)).mp hdisjS
  have hdisjC2 := (hperm.pairwise_iff (fun h m hmg hmf => h m hmf hmg)).mp hdisjC
  have hstTriv : ∀ (V : Type) (m : List (String × V)) , m = [] → ∀ k, containsKey m k = false := by
    intro V m hm k
    rw [hm]
    rfl
  have hloc1 : ∀ f ∈ files1, ∀ r ∈ filePolRefs f,
      r ∈ fileSuppNames f ∨
        (containsKey initCollectState.admxSupportedOnDefinitions r = false ∧
          ∀ g ∈ files1, r ∉ fileSuppNames g) := by
    intro f hf r hr
    rcases hloc f hf r hr with h1 | h2
    · exact Or.inl h1
    · exact Or.inr ⟨rfl, h2⟩
  have hloc2 : ∀ f ∈ files2, ∀ r ∈ filePolRefs f,
      r ∈ fileSuppNames f ∨
        (containsKey initCollectState.admxSupportedOnDefinitions r = false ∧
          ∀ g ∈ files2, r ∉ fileSuppNames g) := by
    intro f hf r hr
    rcases hloc f (hperm.mem_iff.mpr hf) r hr with h1 | h2
    · exact Or.inl h1
    · exact Or.inr ⟨rfl, fun g hg => h2 g (hperm.mem_iff.mpr hg)⟩
  have htrivS : ∀ f ∈ files1, ∀ m ∈ fileSuppNames f,
      containsKey initCollectState.admxSupportedOnDefinitions m = false :=
    fun f _ m _ => rfl
  have htrivS2 : ∀ f ∈ files2, ∀ m ∈ fileSuppNames f,
      containsKey initCollectState.admxSupportedOnDefinitions m = false :=
    fun f _ m _ => rfl
  have htrivP : ∀ f ∈ files1, ∀ m ∈ filePolIds f,
      containsKey initCollectState.allPolicies m = false := fun f _ m _ => rfl
  have htrivP2 : ∀ f ∈ files2, ∀ m ∈ filePolIds f,
      containsKey initCollectState.allPolicies m = false := fun f _ m _ => rfl
  have htrivC : ∀ f ∈ files1, ∀ m ∈ fileCatIds f,
      containsKey initCollectState.allCategories m = false := fun f _ m _ => rfl
  have htrivC2 : ∀ f ∈ files2, ∀ m ∈ fileCatIds f,
      containsKey initCollectState.allCategories m = false := fun f _ m _ => rfl
  refine ⟨?_, ?_, ?_⟩
  · rw [collectAll, collectAll,
      collect_pols_lookup files1 initCollectState i hdisjP hdisjS htrivP htrivS hloc1,
      collect_pols_lookup files2 initCollectState i hdisjP2 hdisjS2 htrivP2 htrivS2 hloc2,
      find?_eq_of_perm _ hperm (disjoint_names_unique filePolIds hdisjP i)]
  · rw [collectAll, collectAll,
      collect_cats_lookup files1 initCollectState i hdisjC htrivC,
      collect_cats_lookup files2 initCollectState i hdisjC2 htrivC2,
      find?_eq_of_perm _ hperm (disjoint_names_unique fileCatIds hdisjC i)]
  · rw [collectAll, collectAll,
      collect_supps_lookup files1 initCollectState i hdisjS htrivS,
      collect_supps_lookup files2 initCollectState i hdisjS2 htrivS2,
      find?_eq_of_perm _ hperm (disjoint_names_unique fileSuppNames hdisjS i)]

/-- C5 (counterexample): the same two source files processed in the two
possible orders store different raw supported-on values for policy
nsA::P, because the referenced definition SUPPORTED_X lives in the other
file.  The claim that the collected maps do not depend on the
enumeration order is therefore false as stated. -/
theorem c5_counterexample :
    (lookupL (collectAll [cexFileA, cexFileB]).allPolicies "nsA::P").map
        (fun p => p.RawSupportedOn) = some "SUPPORTED_X" ∧
    (lookupL (collectAll [cexFileB, cexFileA]).allPolicies "nsA::P").map
        (fun p => p.RawSupportedOn) = some "$(string.X)" ∧
    (some "SUPPORTED_X" : Option String) ≠ some "$(string.X)" := by
  refine ⟨?_, ?_, ?_⟩ <;> decide

/-- C5 (amended): provided no supported-on name, category id or policy
id is defined in two different files, and every supported-on reference
that is defined anywhere is defined in the policy's own file, the
collected supported-on, category and policy maps are equal as lookup
functions for any two enumeration orders of the same file set; in
particular each policy's stored raw supported-on value, and hence its
resolved supportedOn text, is order-independent. -/
theorem c5_collection_order_independence (files1 files2 : List AdmxFileSrc) (i : String)
    (S : List (String × String))
    (hperm : files1.Perm files2)
    (hdisjP : files1.Pairwise (fun f g => ∀ m, m ∈ filePolIds f → m ∉ filePolIds g))
    (hdisjS : files1.Pairwise (fun f g => ∀ m, m ∈ fileSuppNames f → m ∉ fileSuppNames g))
    (hdisjC : files1.Pairwise (fun f g => ∀ m, m ∈ fileCatIds f → m ∉ fileCatIds g))
    (hloc : ∀ f ∈ files1, ∀ r ∈ filePolRefs f,
      r ∈ fileSuppNames f ∨ ∀ g ∈ files1, r ∉ fileSuppNames g) :
    lookupL (collectAll files1).allPolicies i = lookupL (collectAll files2).allPolicies i ∧
    lookupL (collectAll files1).allCategories i =
      lookupL (collectAll files2).allCategories i ∧
    lookupL (collectAll files1).admxSupportedOnDefinitions i =
      lookupL (collectAll files2).admxSupportedOnDefinitions i ∧
    (lookupL (collectAll files1).allPolicies i).map
        (fun p => ResolveString p.RawSupportedOn S (some "Not specified")) =
      (lookupL (collectAll files2).allPolicies i).map
        (fun p => ResolveString p.RawSupportedOn S (some "Not specified")) := by
  obtain ⟨h1, h2, h3⟩ :=
    collect_lookup_perm files1 files2 i hperm hdisjP hdisjS hdisjC hloc
  exact ⟨h1, h2, h3, by rw [h1]⟩

/-- C5 (witness): the amended theorem applies to two disjoint,
self-contained files in either order. -/
theorem c5_witness :
    lookupL (collectAll [wFileC, wFileD]).allPolicies "nsC::PolC" =
      lookupL (collectAll [wFileD, wFileC]).allPolicies "nsC::PolC" :=
  (c5_collection_order_independence [wFileC, wFileD] [wFileD, wFileC] "nsC::PolC" []
    (List.Perm.swap wFileD wFileC []) (by decide) (by decide) (by decide) (by decide)).1

/-! ## First-definition-wins for supportedOn definitions -/

theorem suppMapStep_preserve (s : List (String × SupportedOnDefinition)) (d : SuppDefNode)
    (n : String) (hn : containsKey s n = true) :
    lookupL (suppMapStep s d) n = lookupL s n ∧ containsKey (suppMapStep s d) n = true := by
  unfold suppMapStep
  by_cases hb : isBlank d.name = true
  · rw [if_pos hb]
    exact ⟨rfl, hn⟩
  · rw [if_neg hb]
    by_cases hc : containsKey s d.name = true
    · rw [if_pos hc]
      exact ⟨rfl, hn⟩
    · rw [if_neg hc]
      have hdn : d.name ≠ n := by
        intro he
        rw [he] at hc
        exact hc hn
      constructor
      · rw [lookupL_append]
        unfold containsKey at hn
        cases hs : lookupL s n with
        | some v => rfl
        | none => simp [hs] at hn
      · unfold containsKey at hn ⊢
        rw [lookupL_append]
        cases hs : lookupL s n with
        | some v => rfl
        | none => simp [hs] at hn

theorem suppFoldMap_preserve (ds : List SuppDefNode)
    (s : List (String × SupportedOnDefinition)) (n : String)
    (hn : containsKey s n = true) :
    lookupL (List.foldl suppMapStep s ds) n = lookupL s n ∧
      containsKey (List.foldl suppMapStep s ds) n = true := by
  induction ds generalizing s with
  | nil => exact ⟨rfl, hn⟩
  | cons d ds ih =>
    rw [List.foldl_cons]
    obtain ⟨he, hk⟩ := suppMapStep_preserve s d n hn
    obtain ⟨he2, hk2⟩ := ih (suppMapStep s d) hk
    exact ⟨he2.trans he, hk2⟩

theorem fileSupps_preserve (f : AdmxFileSrc) (s : List (String × SupportedOnDefinition))
    (n : String) (hn : containsKey s n = true) :
    lookupL (fileSupps f s) n = lookupL s n ∧ containsKey (fileSupps f s) n = true := by
  unfold fileSupps
  by_cases hok : fileProcessed f = true
  · rw [if_pos hok]
    exact suppFoldMap_preserve _ _ _ hn
  · rw [if_neg hok]
    exact ⟨rfl, hn⟩

theorem collect_supps_preserve (files : List AdmxFileSrc) (st : CollectState) (n : String)
    (hn : containsKey st.admxSupportedOnDefinitions n = true) :
    lookupL (List.foldl processFile st files).admxSupportedOnDefinitions n =
      lookupL st.admxSupportedOnDefinitions n := by
  induction files generalizing st with
  | nil => rfl
  | cons g rest ih =>
    rw [List.foldl_cons]
    obtain ⟨he, hk⟩ := fileSupps_preserve g st.admxSupportedOnDefinitions n hn
    have hk2 : containsKey (processFile st g).admxSupportedOnDefinitions n = true := by
      rw [processFile_supps]
      exact hk
    rw [ih (processFile st g) hk2, processFile_supps]
    exact he

/-- C8 (counterexample): two files define the supportedOn name
SUPPORTED_A; after collection the stored entry keeps the first file's
display token, and the Write-Warning output consists exactly of the six
absent-section skip warnings — none of them concerns the duplicate.
Indeed the warning output is identical to that of a run in which the
second file defines a fresh name instead of a duplicate, so the later
duplicate is ignored without being logged, refuting the claim that
every later duplicate is logged. -/
theorem c8_counterexample :
    lookupL (collectAll [dupFile1, dupFile2]).admxSupportedOnDefinitions "SUPPORTED_A" =
      some { Name := "SUPPORTED_A", RawDisplayName := "$(string.A1)" } ∧
    (collectAll [dupFile1, dupFile2]).warnings =
      [skipCategoryWarning "d1.admx", skipPolicyWarning "d1.admx",
       skipPresentationWarning "d1.admx", skipCategoryWarning "d2.admx",
       skipPolicyWarning "d2.admx", skipPresentationWarning "d2.admx"] ∧
    (collectAll [dupFile1, dupFile2]).warnings =
      (collectAll [dupFile1, dupFile2Fresh]).warnings := by
  refine ⟨?_, ?_, ?_⟩ <;> decide

/-- C8 (amended): for supported-on definitions the first definition
wins.  Collecting a definition whose non-blank name is already present
leaves the whole state unchanged — in particular nothing is logged —
and no later file changes the stored entry of a present name. -/
theorem c8_first_supportedon_definition_wins (st : CollectState) (d : SuppDefNode)
    (files : List AdmxFileSrc) (st2 : CollectState) (n : String)
    (hb : isBlank d.name = false)
    (hdup : containsKey st.admxSupportedOnDefinitions d.name = true)
    (hn : containsKey st2.admxSupportedOnDefinitions n = true) :
    processSuppDef st d = st ∧
    lookupL (List.foldl processFile st2 files).admxSupportedOnDefinitions n =
      lookupL st2.admxSupportedOnDefinitions n := by
  constructor
  · unfold processSuppDef
    rw [if_neg (by rw [hb]; exact Bool.false_ne_true), if_pos hdup]
  · exact collect_supps_preserve files st2 n hn

/-- C8 (witness): the amended theorem applied to a concrete duplicate
definition arriving after the first. -/
theorem c8_witness :
    processSuppDef (collectAll [dupFile1])
        { name := "SUPPORTED_A", displayName := "$(string.A2)" } =
      collectAll [dupFile1] ∧
    lookupL (List.foldl processFile (collectAll [dupFile1])
        [dupFile2]).admxSupportedOnDefinitions "SUPPORTED_A" =
      lookupL (collectAll [dupFile1]).admxSupportedOnDefinitions "SUPPORTED_A" :=
  c8_first_supportedon_definition_wins (collectAll [dupFile1])
    { name := "SUPPORTED_A", displayName := "$(string.A2)" } [dupFile2]
    (collectAll [dupFile1]) "SUPPORTED_A" (by decide) (by decide) (by decide)

/-! ## Order-independence and non-idempotence of the Step 2 passes -/

theorem linkTarget_linkPass (L : List String) (cats : CMap) (j : String) :
    linkTarget (linkPass cats L) j = linkTarget cats j := by
  induction L generalizing cats with
  | nil => rfl
  | cons a L ih =>
    have hstep : linkPass cats (a :: L) = linkPass (linkStep cats a) L := rfl
    rw [hstep, ih, linkTarget_linkStep]

theorem assocTarget_assocPass (L : List String) (cats : CMap) (pols : PMap)
    (nsMaps : NMap) (j : String) :
    assocTarget (assocPass cats pols nsMaps L).1 (assocPass cats pols nsMaps L).2
      nsMaps j = assocTarget cats pols nsMaps j := by
  induction L generalizing cats pols with
  | nil => rfl
  | cons a L ih =>
    have hstep : assocPass cats pols nsMaps (a :: L) =
        assocPass (assocStep nsMaps (cats, pols) a).1
          (assocStep nsMaps (cats, pols) a).2 nsMaps L := rfl
    rw [hstep, ih, assocTarget_assocStep]

/-- C6 (counterexample): running the category-linking pass twice over
the same map appends a duplicate entry to the parent's childrenIds
(["B", "B"] instead of ["B"]), so the pass is not idempotent as the
claim states. -/
theorem c6_counterexample :
    (lookupL (linkPass cexCats ["A", "B"]) "A").map (fun c => c.ChildrenIds) =
      some ["B"] ∧
    (lookupL (linkPass (linkPass cexCats ["A", "B"]) ["A", "B"]) "A").map
        (fun c => c.ChildrenIds) = some ["B", "B"] ∧
    (some ["B", "B"] : Option (List String)) ≠ some ["B"] := by
  refine ⟨?_, ?_, ?_⟩ <;> decide

/-- C6 (amended): each Step 2 pass is order-independent up to the order
of the childrenIds and policyIds lists (parentId and categoryId agree
exactly, childrenIds and policyIds agree as multisets, for any two
enumeration orders that are permutations of each other); a second
application of a pass leaves every parentId and categoryId unchanged and
preserves the element sets of childrenIds and policyIds, but appends
duplicate entries to those lists instead of leaving them unchanged. -/
theorem c6_pass_order_and_second_application (cats : CMap) (pols : PMap) (nsMaps : NMap)
    (L1 L2 : List String) (k : String) (hperm : L1.Perm L2) :
    ((lookupL (linkPass cats L1) k).map (fun c => c.ParentId) =
      (lookupL (linkPass cats L2) k).map (fun c => c.ParentId)) ∧
    ((lookupL (linkPass cats L1) k).map (fun c => (c.ChildrenIds : Multiset String)) =
      (lookupL (linkPass cats L2) k).map (fun c => (c.ChildrenIds : Multiset String))) ∧
    ((lookupL (linkPass (linkPass cats L1) L1) k).map (fun c => c.ParentId) =
      (lookupL (linkPass cats L1) k).map (fun c => c.ParentId)) ∧
    ((lookupL (linkPass (linkPass cats L1) L1) k).map (fun c => c.ChildrenIds.toFinset) =
      (lookupL (linkPass cats L1) k).map (fun c => c.ChildrenIds.toFinset)) ∧
    ((lookupL (assocPass cats pols nsMaps L1).2 k).map (fun p => p.CategoryId) =
      (lookupL (assocPass cats pols nsMaps L2).2 k).map (fun p => p.CategoryId)) ∧
    ((lookupL (assocPass cats pols nsMaps L1).1 k).map
        (fun c => (c.PolicyIds : Multiset String)) =
      (lookupL (assocPass cats pols nsMaps L2).1 k).map
        (fun c => (c.PolicyIds : Multiset String))) ∧
    ((lookupL (assocPass (assocPass cats pols nsMaps L1).1
        (assocPass cats pols nsMaps L1).2 nsMaps L1).2 k).map (fun p => p.CategoryId) =
      (lookupL (assocPass cats pols nsMaps L1).2 k).map (fun p => p.CategoryId)) ∧
    ((lookupL (assocPass (assocPass cats pols nsMaps L1).1
        (assocPass cats pols nsMaps L1).2 nsMaps L1).1 k).map
          (fun c => c.PolicyIds.toFinset) =
      (lookupL (assocPass cats pols nsMaps L1).1 k).map
        (fun c => c.PolicyIds.toFinset)) := by
  refine ⟨?_, ?_, ?_, ?_, ?_, ?_, ?_, ?_⟩
  · rw [linkPass_lookup, linkPass_lookup]
    cases hk : lookupL cats k with
    | none => rfl
    | some c =>
      simp only [Option.map_some']
      refine congrArg some ?_
      by_cases hc : k ∈ L1 ∧ (linkTarget cats k).isSome = true
      · rw [if_pos hc, if_pos ⟨hperm.mem_iff.mp hc.1, hc.2⟩]
      · rw [if_neg hc, if_neg (fun h => hc ⟨hperm.mem_iff.mpr h.1, h.2⟩)]
  · rw [linkPass_lookup, linkPass_lookup]
    cases hk : lookupL cats k with
    | none => rfl
    | some c =>
      simp only [Option.map_some']
      refine congrArg some ?_
      exact Multiset.coe_eq_coe.mpr (List.Perm.append_left _ (hperm.filter _))
  · rw [linkPass_lookup L1 (linkPass cats L1) k, linkPass_lookup L1 cats k]
    simp only [linkTarget_linkPass]
    cases hk : lookupL cats k with
    | none => rfl
    | some c =>
      simp only [Option.map_some']
      refine congrArg some ?_
      by_cases hc : k ∈ L1 ∧ (linkTarget cats k).isSome = true
      · rw [if_pos hc, if_pos hc]
      · rw [if_neg hc]
  · rw [linkPass_lookup L1 (linkPass cats L1) k, linkPass_lookup L1 cats k]
    simp only [linkTarget_linkPass]
    cases hk : lookupL cats k with
    | none => rfl
    | some c =>
      simp only [Option.map_some']
      refine congrArg some ?_
      simp [List.toFinset_append, Finset.union_assoc]
  · rw [assocPass_lookup_pols, assocPass_lookup_pols]
    cases hk : lookupL pols k with
    | none => rfl
    | some p =>
      simp only [Option.map_some']
      refine congrArg some ?_
      by_cases hc : k ∈ L1 ∧ (assocTarget cats pols nsMaps k).isSome = true
      · rw [if_pos hc, if_pos ⟨hperm.mem_iff.mp hc.1, hc.2⟩]
      · rw [if_neg hc, if_neg (fun h => hc ⟨hperm.mem_iff.mpr h.1, h.2⟩)]
  · rw [assocPass_lookup_cats, assocPass_lookup_cats]
    cases hk : lookupL cats k with
    | none => rfl
    | some c =>
      simp only [Option.map_some']
      refine congrArg some ?_
      exact Multiset.coe_eq_coe.mpr (List.Perm.append_left _ (hperm.filter _))
  · rw [assocPass_lookup_pols L1 (assocPass cats pols nsMaps L1).1
      (assocPass cats pols nsMaps L1).2 nsMaps k, assocPass_lookup_pols L1 cats pols nsMaps k]
    simp only [assocTarget_assocPass]
    cases hk : lookupL pols k with
    | none => rfl
    | some p =>
      simp only [Option.map_some']
      refine congrArg some ?_
      by_cases hc : k ∈ L1 ∧ (assocTarget cats pols nsMaps k).isSome = true
      · rw [if_pos hc, if_pos hc]
      · rw [if_neg hc]
  · rw [assocPass_lookup_cats L1 (assocPass cats pols nsMaps L1).1
      (assocPass cats pols nsMaps L1).2 nsMaps k, assocPass_lookup_cats L1 cats pols nsMaps k]
    simp only [assocTarget_assocPass]
    cases hk : lookupL cats k with
    | none => rfl
    | some c =>
      simp only [Option.map_some']
      refine congrArg some ?_
      simp [List.toFinset_append, Finset.union_assoc]

/-- C6 (witness): the amended theorem applied to a concrete two-category
map and the two enumeration orders of its keys. -/
theorem c6_witness :
    (lookupL (linkPass cexCats ["A", "B"]) "B").map (fun c => c.ParentId) =
      (lookupL (linkPass cexCats ["B", "A"]) "B").map (fun c => c.ParentId) :=
  (c6_pass_order_and_second_application cexCats [] [] ["A", "B"] ["B", "A"] "B"
    (List.Perm.swap "B" "A" [])).1

/-! ## Dangling parent references degrade to top level -/

/-- C3: a category whose stored parent reference is not a key of the
category map keeps a null ParentId through both Step 2 passes, its id is
among the virtual root's children in the per-language output, and it
still appears in the output's allCategories. -/
theorem c3_dangling_parent_degrades_to_top_level (cats : CMap) (pols : PMap)
    (nsMaps : NMap) (L1 L2 : List String) (lang : String)
    (strings : List (String × String)) (press : List (String × PresentationData))
    (cid pid : String) (c : AdmxCategory)
    (hc : lookupL cats cid = some c) (hpid : c.ParentRefUniqueId = some pid)
    (hmiss : containsKey cats pid = false) (hinit : c.ParentId = none)
    (huid : c.UniqueId = cid) :
    ((lookupL (step2 cats pols nsMaps L1 L2).1 cid).map (fun c2 => c2.ParentId) =
      some none) ∧
    cid ∈ outRootChildren (pipelineFromMaps cats pols nsMaps L1 L2 lang strings press) ∧
    cid ∈ outCatIds (pipelineFromMaps cats pols nsMaps L1 L2 lang strings press) := by
  have ht : linkTarget cats cid = none := by
    by_cases hpe : pid = ""
    · simp [linkTarget, hc, hpid, hpe]
    · simp [linkTarget, hc, hpid, hpe, hmiss]
  have h1 : lookupL (linkPass cats L1) cid =
      some { c with
        ChildrenIds := c.ChildrenIds ++
          L1.filter (fun j => decide (linkTarget cats j = some cid)) } := by
    rw [linkPass_lookup, hc]
    simp only [Option.map_some']
    refine congrArg some ?_
    rw [ht]
    simp
  have h2 : lookupL (step2 cats pols nsMaps L1 L2).1 cid =
      some { c with
        ChildrenIds := c.ChildrenIds ++
          L1.filter (fun j => decide (linkTarget cats j = some cid))
        PolicyIds := c.PolicyIds ++
          L2.filter (fun j =>
            decide (assocTarget (linkPass cats L1) pols nsMaps j = some cid)) } := by
    unfold step2
    rw [assocPass_lookup_cats, h1]
    rfl
  refine ⟨?_, ?_, ?_⟩
  · rw [h2]
    simp [hinit]
  · have hmem := lookupL_mem h2
    unfold pipelineFromMaps outRootChildren
    simp only [buildLangOutput, List.head?_cons]
    refine List.mem_map.mpr ?_
    refine ⟨resolvedCat strings { c with
        ChildrenIds := c.ChildrenIds ++
          L1.filter (fun j => decide (linkTarget cats j = some cid))
        PolicyIds := c.PolicyIds ++
          L2.filter (fun j =>
            decide (assocTarget (linkPass cats L1) pols nsMaps j = some cid)) }, ?_, ?_⟩
    · refine List.mem_filter.mpr ⟨?_, ?_⟩
      · exact List.mem_map.mpr ⟨_, hmem, rfl⟩
      · simp [resolvedCat, parentFalsy, hinit]
    · simp [resolvedCat, huid]
  · have hmem := lookupL_mem h2
    unfold pipelineFromMaps outCatIds
    simp only [buildLangOutput, List.map_cons]
    refine List.mem_cons.mpr (Or.inr ?_)
    refine List.mem_map.mpr ⟨resolvedCat strings { c with
        ChildrenIds := c.ChildrenIds ++
          L1.filter (fun j => decide (linkTarget cats j = some cid))
        PolicyIds := c.PolicyIds ++
          L2.filter (fun j =>
            decide (assocTarget (linkPass cats L1) pols nsMaps j = some cid)) }, ?_, ?_⟩
    · exact List.mem_map.mpr ⟨_, hmem, rfl⟩
    · simp [resolvedCat, huid]

/-- C3 (witness): the theorem applied to a concrete map with one
category whose declared parent does not exist. -/
theorem c3_witness :
    ((lookupL (step2 wCats3 [] [] ["nsW::C"] []).1 "nsW::C").map
      (fun c2 => c2.ParentId) = some none) ∧
    "nsW::C" ∈ outRootChildren
      (pipelineFromMaps wCats3 [] [] ["nsW::C"] [] "en-US" [] []) ∧
    "nsW::C" ∈ outCatIds
      (pipelineFromMaps wCats3 [] [] ["nsW::C"] [] "en-US" [] []) :=
  c3_dangling_parent_degrades_to_top_level wCats3 [] [] ["nsW::C"] [] "en-US" [] []
    "nsW::C" "nsW::Missing" wDanglingCat (by decide) (by decide) (by decide)
    (by decide) (by decide)

/-! ## Every non-null categoryId in the output names an output category -/

theorem mem_setL {V : Type} {m : List (String × V)} {k : String} {v : V}
    {kv : String × V} (h : kv ∈ setL m k v) : kv ∈ m ∨ kv = (k, v) := by
  induction m with
  | nil =>
    simp [setL] at h
    exact Or.inr h
  | cons kv0 rest ih =>
    by_cases hk : kv0.1 = k
    · rw [setL, if_pos hk] at h
      rcases List.mem_cons.mp h with h1 | h2
      · exact Or.inr h1
      · exact Or.inl (List.mem_cons_of_mem kv0 h2)
    · rw [setL, if_neg hk] at h
      rcases List.mem_cons.mp h with h1 | h2
      · exact Or.inl (h1 ▸ List.mem_cons_self kv0 rest)
      · rcases ih h2 with h3 | h4
        · exact Or.inl (List.mem_cons_of_mem kv0 h3)
        · exact Or.inr h4

theorem mem_modL {V : Type} {m : List (String × V)} {k : String} {f : V → V}
    {kv : String × V} (h : kv ∈ modL m k f) :
    kv ∈ m ∨ ∃ kv0, kv0 ∈ m ∧ kv = (kv0.1, f kv0.2) := by
  induction m with
  | nil =>
    simp [modL] at h
  | cons kv0 rest ih =>
    by_cases hk : kv0.1 = k
    · rw [modL, if_pos hk] at h
      rcases List.mem_cons.mp h with h1 | h2
      · exact Or.inr ⟨kv0, List.mem_cons_self kv0 rest, h1⟩
      · exact Or.inl (List.mem_cons_of_mem kv0 h2)
    · rw [modL, if_neg hk] at h
      rcases List.mem_cons.mp h with h1 | h2
      · exact Or.inl (h1 ▸ List.mem_cons_self kv0 rest)
      · rcases ih h2 with h3 | h4
        · exact Or.inl (List.mem_cons_of_mem kv0 h3)
        · obtain ⟨kv1, hkv1, he⟩ := h4
          exact Or.inr ⟨kv1, List.mem_cons_of_mem kv0 hkv1, he⟩

theorem catFoldMap_uid (cs : List CategoryNode) (fn : String)
    (ns : List (String × String)) (tns : String) (s : CMap)
    (hs : ∀ kv ∈ s, kv.2.UniqueId = kv.1) :
    ∀ kv ∈ List.foldl (catMapStep fn ns tns) s cs, kv.2.UniqueId = kv.1 := by
  induction cs generalizing s with
  | nil => exact hs
  | cons c cs ih =>
    rw [List.foldl_cons]
    refine ih _ ?_
    intro kv hkv
    unfold catMapStep at hkv
    by_cases hb : isBlank c.name = true
    · rw [if_pos hb] at hkv
      exact hs kv hkv
    · rw [if_neg hb] at hkv
      rcases mem_setL hkv with h1 | h2
      · exact hs kv h1
      · rw [h2]
        rfl

theorem polFoldMap_catid (ps : List PolicyNodeSrc) (fn tns : String)
    (supps : List (String × SupportedOnDefinition)) (s : PMap)
    (hs : ∀ kv ∈ s, kv.2.CategoryId = none) :
    ∀ kv ∈ List.foldl (polMapStep fn tns supps) s ps, kv.2.CategoryId = none := by
  induction ps generalizing s with
  | nil => exact hs
  | cons p ps ih =>
    rw [List.foldl_cons]
    refine ih _ ?_
    intro kv hkv
    unfold polMapStep at hkv
    by_cases hb : isBlank p.name = true
    · rw [if_pos hb] at hkv
      exact hs kv hkv
    · rw [if_neg hb] at hkv
      rcases mem_setL hkv with h1 | h2
      · exact hs kv h1
      · rw [h2]
        rfl

theorem collect_cats_uid (files : List AdmxFileSrc) (st : CollectState)
    (hs : ∀ kv ∈ st.allCategories, kv.2.UniqueId = kv.1) :
    ∀ kv ∈ (List.foldl processFile st files).allCategories, kv.2.UniqueId = kv.1 := by
  induction files generalizing st with
  | nil => exact hs
  | cons g rest ih =>
    rw [List.foldl_cons]
    refine ih _ ?_
    rw [processFile_cats]
    unfold fileCats
    by_cases hok : fileProcessed g = true
    · rw [if_pos hok]
      exact catFoldMap_uid _ _ _ _ _ hs
    · rw [if_neg hok]
      exact hs

theorem collect_pols_catid (files : List AdmxFileSrc) (st : CollectState)
    (hs : ∀ kv ∈ st.allPolicies, kv.2.CategoryId = none) :
    ∀ kv ∈ (List.foldl processFile st files).allPolicies, kv.2.CategoryId = none := by
  induction files generalizing st with
  | nil => exact hs
  | cons g rest ih =>
    rw [List.foldl_cons]
    refine ih _ ?_
    rw [processFile_pols]
    unfold filePols
    by_cases hok : fileProcessed g = true
    · rw [if_pos hok]
      exact polFoldMap_catid _ _ _ _ _ hs
    · rw [if_neg hok]
      exact hs

theorem linkStep_uid (cats : CMap) (a : String)
    (hs : ∀ kv ∈ cats, kv.2.UniqueId = kv.1) :
    ∀ kv ∈ linkStep cats a, kv.2.UniqueId = kv.1 := by
  intro kv hkv
  cases ha : lookupL cats a with
  | none =>
    have hval : linkStep cats a = cats := by simp [linkStep, ha]
    rw [hval] at hkv
    exact hs kv hkv
  | some c =>
    cases hpr : c.ParentRefUniqueId with
    | none =>
      have hval : linkStep cats a = cats := by simp [linkStep, ha, hpr]
      rw [hval] at hkv
      exact hs kv hkv
    | some pid =>
      by_cases hpe : pid = ""
      · have hval : linkStep cats a = cats := by simp [linkStep, ha, hpr, hpe]
        rw [hval] at hkv
        exact hs kv hkv
      · by_cases hck : containsKey cats pid = true
        · have hval : linkStep cats a =
              modL (modL cats pid
                  (fun p => { p with ChildrenIds := p.ChildrenIds ++ [a] })) a
                (fun c2 => { c2 with ParentId := some pid }) := by
            simp [linkStep, ha, hpr, hpe, hck]
          rw [hval] at hkv
          rcases mem_modL hkv with h1 | h2
          · rcases mem_modL h1 with h3 | h4
            · exact hs kv h3
            · obtain ⟨kv0, hkv0, he⟩ := h4
              rw [he]
              exact hs kv0 hkv0
          · obtain ⟨kv0, hkv0, he⟩ := h2
            rw [he]
            rcases mem_modL hkv0 with h5 | h6
            · exact hs kv0 h5
            · obtain ⟨kv1, hkv1, he2⟩ := h6
              rw [he2]
              exact hs kv1 hkv1
        · have hval : linkStep cats a = cats := by simp [linkStep, ha, hpr, hpe, hck]
          rw [hval] at hkv
          exact hs kv hkv

theorem linkPass_uid (L : List String) (cats : CMap)
    (hs : ∀ kv ∈ cats, kv.2.UniqueId = kv.1) :
    ∀ kv ∈ linkPass cats L, kv.2.UniqueId = kv.1 := by
  induction L generalizing cats with
  | nil => exact hs
  | cons a L ih => exact ih (linkStep cats a) (linkStep_uid cats a hs)

theorem assocStep_uid (nsMaps : NMap) (cats : CMap) (pols : PMap) (a : String)
    (hs : ∀ kv ∈ cats, kv.2.UniqueId = kv.1) :
    ∀ kv ∈ (assocStep nsMaps (cats, pols) a).1, kv.2.UniqueId = kv.1 := by
  intro kv hkv
  cases ha : lookupL pols a with
  | none =>
    have hval : (assocStep nsMaps (cats, pols) a).1 = cats := by simp [assocStep, ha]
    rw [hval] at hkv
    exact hs kv hkv
  | some p =>
    cases hpr : p.ParentCategoryRefRaw with
    | none =>
      have hval : (assocStep nsMaps (cats, pols) a).1 = cats := by
        simp [assocStep, ha, hpr]
      rw [hval] at hkv
      exact hs kv hkv
    | some r =>
      by_cases hre : r = ""
      · have hval : (assocStep nsMaps (cats, pols) a).1 = cats := by
          simp [assocStep, ha, hpr, hre]
        rw [hval] at hkv
        exact hs kv hkv
      · cases hns : findNsMap nsMaps p.AdmxFile with
        | none =>
          have hval : (assocStep nsMaps (cats, pols) a).1 = cats := by
            simp [assocStep, ha, hpr, hre, hns]
          rw [hval] at hkv
          exact hs kv hkv
        | some nsMap =>
          by_cases hck :
              containsKey cats (ResolvePrefixedName r nsMap p.NamespaceUri).1 = true
          · have hval : (assocStep nsMaps (cats, pols) a).1 =
                modL cats (ResolvePrefixedName r nsMap p.NamespaceUri).1
                  (fun c => { c with PolicyIds := c.PolicyIds ++ [a] }) := by
              simp [assocStep, ha, hpr, hre, hns, hck]
            rw [hval] at hkv
            rcases mem_modL hkv with h1 | h2
            · exact hs kv h1
            · obtain ⟨kv0, hkv0, he⟩ := h2
              rw [he]
              exact hs kv0 hkv0
          · have hval : (assocStep nsMaps (cats, pols) a).1 = cats := by
              simp [assocStep, ha, hpr, hre, hns, hck]
            rw [hval] at hkv
            exact hs kv hkv

theorem assocPass_uid (L : List String) (cats : CMap) (pols : PMap) (nsMaps : NMap)
    (hs : ∀ kv ∈ cats, kv.2.UniqueId = kv.1) :
    ∀ kv ∈ (assocPass cats pols nsMaps L).1, kv.2.UniqueId = kv.1 := by
  induction L generalizing cats pols with
  | nil => exact hs
  | cons a L ih =>
    exact ih (assocStep nsMaps (cats, pols) a).1 (assocStep nsMaps (cats, pols) a).2
      (assocStep_uid nsMaps cats pols a hs)

theorem containsKey_linkPass (L : List String) (cats : CMap) (x : String) :
    containsKey (linkPass cats L) x = containsKey cats x := by
  induction L generalizing cats with
  | nil => rfl
  | cons a L ih =>
    have hstep : linkPass cats (a :: L) = linkPass (linkStep cats a) L := rfl
    rw [hstep, ih, containsKey_linkStep]

theorem containsKey_assocPass_cats (L : List String) (cats : CMap) (pols : PMap)
    (nsMaps : NMap) (x : String) :
    containsKey (assocPass cats pols nsMaps L).1 x = containsKey cats x := by
  induction L generalizing cats pols with
  | nil => rfl
  | cons a L ih =>
    have hstep : assocPass cats pols nsMaps (a :: L) =
        assocPass (assocStep nsMaps (cats, pols) a).1
          (assocStep nsMaps (cats, pols) a).2 nsMaps L := rfl
    rw [hstep, ih, containsKey_assocStep_cats]

theorem assocStep_catid (nsMaps : NMap) (cats : CMap) (pols : PMap) (a : String)
    (cats0 : CMap) (hkeys : ∀ x, containsKey cats x = containsKey cats0 x)
    (hs : ∀ kv ∈ pols, ∀ t, kv.2.CategoryId = some t → containsKey cats0 t = true) :
    ∀ kv ∈ (assocStep nsMaps (cats, pols) a).2, ∀ t, kv.2.CategoryId = some t →
      containsKey cats0 t = true := by
  intro kv hkv t hct
  cases ha : lookupL pols a with
  | none =>
    have hval : (assocStep nsMaps (cats, pols) a).2 = pols := by simp [assocStep, ha]
    rw [hval] at hkv
    exact hs kv hkv t hct
  | some p =>
    cases hpr : p.ParentCategoryRefRaw with
    | none =>
      have hval : (assocStep nsMaps (cats, pols) a).2 = pols := by
        simp [assocStep, ha, hpr]
      rw [hval] at hkv
      exact hs kv hkv t hct
    | some r =>
      by_cases hre : r = ""
      · have hval : (assocStep nsMaps (cats, pols) a).2 = pols := by
          simp [assocStep, ha, hpr, hre]
        rw [hval] at hkv
        exact hs kv hkv t hct
      · cases hns : findNsMap nsMaps p.AdmxFile with
        | none =>
          have hval : (assocStep nsMaps (cats, pols) a).2 = pols := by
            simp [assocStep, ha, hpr, hre, hns]
          rw [hval] at hkv
          exact hs kv hkv t hct
        | some nsMap =>
          by_cases hck :
              containsKey cats (ResolvePrefixedName r nsMap p.NamespaceUri).1 = true
          · have hval : (assocStep nsMaps (cats, pols) a).2 =
                modL pols a (fun p2 => { p2 with CategoryId := some (ResolvePrefixedName r nsMap p.NamespaceUri).1 }) := by
              simp [assocStep, ha, hpr, hre, hns, hck]
            rw [hval] at hkv
            rcases mem_modL hkv with h1 | h2
            · exact hs kv h1 t hct
            · obtain ⟨kv0, hkv0, he⟩ := h2
              rw [he] at hct
              simp only at hct
              have ht : t = (ResolvePrefixedName r nsMap p.NamespaceUri).1 :=
                (Option.some.inj hct).symm
              rw [ht, ← hkeys]
              exact hck
          · have hval : (assocStep nsMaps (cats, pols) a).2 = pols := by
              simp [assocStep, ha, hpr, hre, hns, hck]
            rw [hval] at hkv
            exact hs kv hkv t hct

theorem assocPass_catid (L : List String) (cats : CMap) (pols : PMap) (nsMaps : NMap)
    (cats0 : CMap) (hkeys : ∀ x, containsKey cats x = containsKey cats0 x)
    (hs : ∀ kv ∈ pols, ∀ t, kv.2.CategoryId = some t → containsKey cats0 t = true) :
    ∀ kv ∈ (assocPass cats pols nsMaps L).2, ∀ t, kv.2.CategoryId = some t →
      containsKey cats0 t = true := by
  induction L generalizing cats pols with
  | nil => exact hs
  | cons a L ih =>
    refine ih (assocStep nsMaps (cats, pols) a).1 (assocStep nsMaps (cats, pols) a).2
      ?_ (assocStep_catid nsMaps cats pols a cats0 hkeys hs)
    intro x
    rw [containsKey_assocStep_cats]
    exact hkeys x

/-- C1: in every per-language output of the pipeline, each policy record
whose categoryId is non-null names a category record present in the same
output's allCategories. -/
theorem c1_policy_category_roundtrip (files : List AdmxFileSrc) (L1 L2 : List String)
    (lang : String) (strings : List (String × String))
    (press : List (String × PresentationData)) (rp : ResolvedPolicy) (c : String)
    (hmem : rp ∈ (runPipeline files L1 L2 lang strings press).allPolicies)
    (hcid : rp.categoryId = some c) :
    c ∈ outCatIds (runPipeline files L1 L2 lang strings press) := by
  have hcats0 : ∀ kv ∈ (collectAll files).allCategories, kv.2.UniqueId = kv.1 :=
    collect_cats_uid files initCollectState (by intro kv hkv; simp [initCollectState] at hkv)
  have hpols0 : ∀ kv ∈ (collectAll files).allPolicies, kv.2.CategoryId = none :=
    collect_pols_catid files initCollectState (by intro kv hkv; simp [initCollectState] at hkv)
  have hcats1 : ∀ kv ∈ linkPass (collectAll files).allCategories L1, kv.2.UniqueId = kv.1 :=
    linkPass_uid L1 _ hcats0
  have hcats2 : ∀ kv ∈ (assocPass (linkPass (collectAll files).allCategories L1)
      (collectAll files).allPolicies (collectAll files).admxNamespaces L2).1,
      kv.2.UniqueId = kv.1 :=
    assocPass_uid L2 _ _ _ hcats1
  have hinv2 : ∀ kv ∈ (assocPass (linkPass (collectAll files).allCategories L1)
      (collectAll files).allPolicies (collectAll files).admxNamespaces L2).2,
      ∀ t, kv.2.CategoryId = some t →
        containsKey (linkPass (collectAll files).allCategories L1) t = true := by
    refine assocPass_catid L2 _ _ _ _ (fun x => rfl) ?_
    intro kv hkv t hct
    rw [hpols0 kv hkv] at hct
    exact Option.noConfusion hct
  have hout : (runPipeline files L1 L2 lang strings press).allPolicies =
      ((assocPass (linkPass (collectAll files).allCategories L1)
        (collectAll files).allPolicies (collectAll files).admxNamespaces L2).2).map
        (fun kv => resolvedPol strings press kv.2) := rfl
  rw [hout] at hmem
  obtain ⟨kv, hkv, hrp⟩ := List.mem_map.mp hmem
  have hkvc : kv.2.CategoryId = some c := by
    rw [← hcid, ← hrp]
    rfl
  have hck : containsKey (linkPass (collectAll files).allCategories L1) c = true :=
    hinv2 kv hkv c hkvc
  have hck2 : containsKey (assocPass (linkPass (collectAll files).allCategories L1)
      (collectAll files).allPolicies (collectAll files).admxNamespaces L2).1 c = true := by
    rw [containsKey_assocPass_cats]
    exact hck
  unfold containsKey at hck2
  cases hv : lookupL (assocPass (linkPass (collectAll files).allCategories L1)
      (collectAll files).allPolicies (collectAll files).admxNamespaces L2).1 c with
  | none => rw [hv] at hck2; exact Bool.noConfusion hck2
  | some v =>
    have hvmem := lookupL_mem hv
    have hvid : v.UniqueId = c := hcats2 (c, v) hvmem
    unfold outCatIds
    have hout2 : (runPipeline files L1 L2 lang strings press).allCategories.map
          (fun rc => rc.id) =
        "ROOT" :: ((assocPass (linkPass (collectAll files).allCategories L1)
          (collectAll files).allPolicies (collectAll files).admxNamespaces L2).1).map
          (fun kv => (resolvedCat strings kv.2).id) := by
      simp [runPipeline, pipelineFromMaps, buildLangOutput, step2]
    rw [hout2]
    refine List.mem_cons.mpr (Or.inr ?_)
    refine List.mem_map.mpr ⟨(c, v), hvmem, ?_⟩
    simp [resolvedCat, hvid]

/-- C1 (witness): the round-trip theorem applied to a concrete one-file
pipeline whose policy is associated with its category. -/
theorem c1_witness :
    ((runPipeline [wFileE] ["nsW::Cat"] ["nsW::Pol"] "en-US" [] []).allPolicies.map
      (fun rp => rp.categoryId) = [some "nsW::Cat"]) ∧
    "nsW::Cat" ∈ outCatIds (runPipeline [wFileE] ["nsW::Cat"] ["nsW::Pol"] "en-US" [] []) := by
  refine ⟨by decide, ?_⟩
  have hmem : ∃ rp ∈ (runPipeline [wFileE] ["nsW::Cat"] ["nsW::Pol"]
      "en-US" [] []).allPolicies, rp.categoryId = some "nsW::Cat" := by decide
  obtain ⟨rp, hrp, hcid⟩ := hmem
  exact c1_policy_category_roundtrip [wFileE] ["nsW::Cat"] ["nsW::Pol"] "en-US" [] []
    rp "nsW::Cat" hrp hcid

/-! ## The symbolic reference resolver -/

/-- C2 (code evaluation): the three documented examples of the resolver
hold, but a string-reference miss with no fallback returns "" rather
than the original token: the [string]-typed DefaultValue parameter binds
$null as "", so the guard for returning the raw token never fires,
contradicting the in-code comment and the specification. -/
theorem c2_resolver_code_evaluation :
    ResolveString "$(string.Foo)" [("Foo", "Bar")] none = "Bar" ∧
    ResolveString "$(string.Missing)" [] (some "X") = "X" ∧
    ResolveString "LiteralText" [] none = "LiteralText" ∧
    ResolveString "$(string.Missing)" [] none = "" ∧
    ("" : String) ≠ "$(string.Missing)" := by
  refine ⟨?_, ?_, ?_, ?_, ?_⟩ <;> decide

theorem resolve_fixed (s : String) (S : List (String × String)) (f : Option String)
    (h : isTokenForm s = false) : ResolveString s S f = s := by
  unfold isTokenForm at h
  rcases Bool.or_eq_false_iff.mp h with ⟨h1, h2⟩
  have hm : matchStringToken s = none := by
    cases hx : matchStringToken s with
    | none => rfl
    | some v => rw [hx] at h1; simp at h1
  simp [ResolveString, hm, h2]

/-- C9 (counterexample): resolving twice is not the same as resolving
once when a string-table value is itself a reference token, so the
resolver is not idempotent for every table. -/
theorem c9_counterexample :
    ResolveString "$(string.Foo)" [("Foo", "$(string.Bar)"), ("Bar", "B")] none =
      "$(string.Bar)" ∧
    ResolveString (ResolveString "$(string.Foo)"
        [("Foo", "$(string.Bar)"), ("Bar", "B")] none)
      [("Foo", "$(string.Bar)"), ("Bar", "B")] none = "B" ∧
    ("B" : String) ≠ "$(string.Bar)" := by
  refine ⟨?_, ?_, ?_⟩ <;> decide

/-- C9 (amended): the resolver is a pure function, and it is idempotent
whenever no value of the string table and no supplied fallback is itself
a reference token (of either recognized form); on such tables resolving
an already-resolved string is a no-op. -/
theorem c9_resolver_conditionally_idempotent (t : String)
    (S : List (String × String)) (f : Option String)
    (hS : S.all (fun kv => !(isTokenForm kv.2)) = true)
    (hf : (match f with
           | some v => !(isTokenForm v)
           | none => true) = true) :
    ResolveString (ResolveString t S f) S f = ResolveString t S f := by
  have hSv : ∀ id v, lookupL S id = some v → isTokenForm v = false := by
    intro id v hv
    have hmem := lookupL_mem hv
    have := List.all_eq_true.mp hS (id, v) hmem
    simp only [Bool.not_eq_true'] at this
    exact this
  cases hm : matchStringToken t with
  | some id =>
    cases hli : lookupL S id with
    | some v =>
      have h1 : ResolveString t S f = v := by simp [ResolveString, hm, hli]
      rw [h1]
      exact resolve_fixed v S f (hSv id v hli)
    | none =>
      rcases f with _ | v
      · have h1 : ResolveString t S none = "" := by simp [ResolveString, hm, hli]
        rw [h1]
        exact resolve_fixed "" S none (by decide)
      · have h1 : ResolveString t S (some v) = v := by simp [ResolveString, hm, hli]
        rw [h1]
        refine resolve_fixed v S (some v) ?_
        simp only [Bool.not_eq_true'] at hf
        exact hf
  | none =>
    by_cases hw : likeWindowsSupported t = true
    · cases hlw : lookupL S (removeWindows t) with
      | some v =>
        have h1 : ResolveString t S f = v := by simp [ResolveString, hm, hw, hlw]
        rw [h1]
        exact resolve_fixed v S f (hSv _ v hlw)
      | none =>
        have h1 : ResolveString t S f = t := by simp [ResolveString, hm, hw, hlw]
        rw [h1, h1]
    · have h1 : ResolveString t S f = t := by simp [ResolveString, hm, hw]
      rw [h1, h1]

/-- C9 (witness): the conditional idempotence theorem applied to a
table whose values are plain literals. -/
theorem c9_witness :
    ResolveString (ResolveString "$(string.Foo)" [("Foo", "Bar")] none)
        [("Foo", "Bar")] none =
      ResolveString "$(string.Foo)" [("Foo", "Bar")] none :=
  c9_resolver_conditionally_idempotent "$(string.Foo)" [("Foo", "Bar")] none
    (by decide) (by decide)

/-! ## Resolved policy fields of the per-language output -/

/-- C4 (counterexample): with an empty string table the output policy's
explainText is "No description." and its supportedOn is
"Not specified" — not the exact fallback strings "no description" and
"not specified" the claim states. -/
theorem c4_counterexample :
    (buildLangOutput "en-US" [] [] [] cexPols4).allPolicies.map
        (fun rp => rp.explainText) = ["No description."] ∧
    (buildLangOutput "en-US" [] [] [] cexPols4).allPolicies.map
        (fun rp => rp.supportedOn) = ["Not specified"] ∧
    ("No description." : String) ≠ "no description" ∧
    ("Not specified" : String) ≠ "not specified" := by
  refine ⟨?_, ?_, ?_, ?_⟩ <;> decide

/-- C4 (amended): every stored policy record yields an output record in
allPolicies whose displayName resolves its raw display token with the
policy name as fallback, whose explainText resolves the raw explain
token with fallback "No description.", and whose supportedOn resolves
the raw supported-on token with fallback "Not specified". -/
theorem c4_resolved_policy_fields (lang : String) (strings : List (String × String))
    (press : List (String × PresentationData)) (cats : CMap) (pols : PMap)
    (kv : String × AdmxPolicy) (hkv : kv ∈ pols) :
    resolvedPol strings press kv.2 ∈
      (buildLangOutput lang strings press cats pols).allPolicies ∧
    (resolvedPol strings press kv.2).displayName =
      ResolveString kv.2.RawDisplayName strings (some kv.2.Name) ∧
    (resolvedPol strings press kv.2).explainText =
      ResolveString kv.2.RawExplainText strings (some "No description.") ∧
    (resolvedPol strings press kv.2).supportedOn =
      ResolveString kv.2.RawSupportedOn strings (some "Not specified") := by
  refine ⟨?_, rfl, rfl, rfl⟩
  exact List.mem_map.mpr ⟨kv, hkv, rfl⟩

/-- C4 (witness): the amended theorem applied to a concrete stored
policy. -/
theorem c4_witness :
    resolvedPol [] [] cexPolRec ∈
      (buildLangOutput "en-US" [] [] [] cexPols4).allPolicies ∧
    (resolvedPol [] [] cexPolRec).displayName =
      ResolveString cexPolRec.RawDisplayName [] (some cexPolRec.Name) ∧
    (resolvedPol [] [] cexPolRec).explainText =
      ResolveString cexPolRec.RawExplainText [] (some "No description.") ∧
    (resolvedPol [] [] cexPolRec).supportedOn =
      ResolveString cexPolRec.RawSupportedOn [] (some "Not specified") :=
  c4_resolved_policy_fields "en-US" [] [] [] cexPols4 ("ns::P", cexPolRec) (by decide)

/-! ## The virtual root category -/

/-- C10: in every per-language output the first allCategories record is
the synthetic root: id "ROOT", null parent, empty policies, and a
displayName equal to the string-table entry for VirtualRootDisplayName
when one is defined and to "Administrative Templates" otherwise. -/
theorem c10_virtual_root (lang : String) (strings : List (String × String))
    (press : List (String × PresentationData)) (cats : CMap) (pols : PMap) :
    (((buildLangOutput lang strings press cats pols).allCategories.head?).map
        (fun rt => rt.id) = some "ROOT") ∧
    (((buildLangOutput lang strings press cats pols).allCategories.head?).map
        (fun rt => rt.parent) = some none) ∧
    (((buildLangOutput lang strings press cats pols).allCategories.head?).map
        (fun rt => rt.policies) = some []) ∧
    (((buildLangOutput lang strings press cats pols).allCategories.head?).map
        (fun rt => rt.displayName) =
      some (match lookupL strings "VirtualRootDisplayName" with
            | some v => v
            | none => "Administrative Templates")) := by
  refine ⟨rfl, rfl, rfl, ?_⟩
  have hm : matchStringToken "$(string.VirtualRootDisplayName)" =
      some "VirtualRootDisplayName" := by decide
  cases hl : lookupL strings "VirtualRootDisplayName" with
  | some v =>
    simp [buildLangOutput, ResolveString, hm, hl]
  | none =>
    simp [buildLangOutput, ResolveString, hm, hl]

/-! ## Unrecognized element kinds in registry extraction -/

/-- C7 (counterexample): a policy node whose elements child has the
unrecognized kind "foo" produces a RegistryElement for that child (with
type "Unknown") in the resulting elements list, so the child is not
skipped as the claim states; the unrecognized kind is logged. -/
theorem c7_counterexample :
    ((ProcessRegistryInfo cexFooNode []).1.elements).map (fun l => l.length) = some 1 ∧
    ((ProcessRegistryInfo cexFooNode []).1.elements).map
        (fun l => l.map (fun re => (re.id, re.type))) = some [("E1", "Unknown")] ∧
    unsupportedElementWarning "foo" "FooPol" ∈ (ProcessRegistryInfo cexFooNode []).2 := by
  refine ⟨?_, ?_, ?_⟩ <;> decide

/-- C7 (amended): during registry extraction, a child of the elements
node whose kind is not one of enum, decimal, text, boolean, multiText or
list is logged, and a RegistryElement for it — with type "Unknown" — is
still added to the resulting elements list (it is not skipped). -/
theorem c7_unrecognized_kind_logged_not_skipped (PolicyNode : PolicyNodeSrc)
    (StringTable : List (String × String)) (children : List ElementNode)
    (e : ElementNode) (hel : PolicyNode.elements = some children) (hmem : e ∈ children)
    (hkind : e.localName ∉
      (["enum", "decimal", "text", "boolean", "multiText", "list"] : List String)) :
    (processRegElement PolicyNode.name StringTable e).1 ∈
      ((ProcessRegistryInfo PolicyNode StringTable).1.elements).getD [] ∧
    (processRegElement PolicyNode.name StringTable e).1.type = "Unknown" ∧
    (processRegElement PolicyNode.name StringTable e).1.id = e.id ∧
    unsupportedElementWarning e.localName PolicyNode.name ∈
      (ProcessRegistryInfo PolicyNode StringTable).2 := by
  have hk1 : e.localName ≠ "enum" := fun h => hkind (by rw [h]; decide)
  have hk2 : e.localName ≠ "decimal" := fun h => hkind (by rw [h]; decide)
  have hk3 : e.localName ≠ "text" := fun h => hkind (by rw [h]; decide)
  have hk4 : e.localName ≠ "boolean" := fun h => hkind (by rw [h]; decide)
  have hk5 : e.localName ≠ "multiText" := fun h => hkind (by rw [h]; decide)
  have hk6 : e.localName ≠ "list" := fun h => hkind (by rw [h]; decide)
  have hre : processRegElement PolicyNode.name StringTable e =
      ({ id := e.id, valueName := e.valueName, type := "Unknown", options := none,
         minValue := e.minValue, maxValue := e.maxValue, maxLength := e.maxLength,
         required := match e.required with
           | some b => b
           | none => false },
       [unsupportedElementWarning e.localName PolicyNode.name]) := by
    unfold processRegElement
    rw [if_neg hk1, if_neg hk2, if_neg hk3, if_neg hk4, if_neg hk5, if_neg hk6]
  have hlen : (children.map
      (fun e2 => processRegElement PolicyNode.name StringTable e2)).length > 0 := by
    rw [List.length_map]
    exact List.length_pos.mpr (List.ne_nil_of_mem hmem)
  have hlen2 : ((children.map
      (fun e2 => processRegElement PolicyNode.name StringTable e2)).map
        (fun r => r.1)).length > 0 := by
    rw [List.length_map]
    exact hlen
  have hval1 : (ProcessRegistryInfo PolicyNode StringTable).1.elements =
      some ((children.map
        (fun e2 => processRegElement PolicyNode.name StringTable e2)).map
          (fun r => r.1)) := by
    unfold ProcessRegistryInfo
    rw [hel]
    simp only [if_pos hlen2]
    by_cases hvn : PolicyNode.valueName ≠ "" ∧
        ({ topRegInfo PolicyNode StringTable with
          elements := some ((children.map
            (fun e2 => processRegElement PolicyNode.name StringTable e2)).map
              (fun r => r.1)) } : RegInfo).elements ≠ none
    · rw [if_pos hvn]
      by_cases ht : ({ topRegInfo PolicyNode StringTable with
          elements := some ((children.map
            (fun e2 => processRegElement PolicyNode.name StringTable e2)).map
              (fun r => r.1)) } : RegInfo).type = "Unknown" ∧
          ({ topRegInfo PolicyNode StringTable with
            elements := some ((children.map
              (fun e2 => processRegElement PolicyNode.name StringTable e2)).map
                (fun r => r.1)) } : RegInfo).enabledValue ≠ none
      · rw [if_pos ht]
      · rw [if_neg ht]
    · rw [if_neg hvn]
  have hwarn : (ProcessRegistryInfo PolicyNode StringTable).2 =
      ((children.map
        (fun e2 => processRegElement PolicyNode.name StringTable e2)).map
          (fun r => r.2)).flatten ∨
      ∃ w, (ProcessRegistryInfo PolicyNode StringTable).2 =
        ((children.map
          (fun e2 => processRegElement PolicyNode.name StringTable e2)).map
            (fun r => r.2)).flatten ++ [w] := by
    unfold ProcessRegistryInfo
    rw [hel]
    simp only [if_pos hlen2]
    by_cases hvn : PolicyNode.valueName ≠ "" ∧
        ({ topRegInfo PolicyNode StringTable with
          elements := some ((children.map
            (fun e2 => processRegElement PolicyNode.name StringTable e2)).map
              (fun r => r.1)) } : RegInfo).elements ≠ none
    · rw [if_pos hvn]
      refine Or.inr ⟨"Policy " ++ PolicyNode.name ++
        " has both a top-level valueName and elements. Registry information might be complex.",
        rfl⟩
    · rw [if_neg hvn]
      exact Or.inl rfl
  have hmemflat : unsupportedElementWarning e.localName PolicyNode.name ∈
      ((children.map
        (fun e2 => processRegElement PolicyNode.name StringTable e2)).map
          (fun r => r.2)).flatten := by
    refine List.mem_flatten.mpr ⟨[unsupportedElementWarning e.localName PolicyNode.name], ?_, ?_⟩
    · refine List.mem_map.mpr ⟨processRegElement PolicyNode.name StringTable e, ?_, ?_⟩
      · exact List.mem_map.mpr ⟨e, hmem, rfl⟩
      · rw [hre]
    · exact List.mem_singleton.mpr rfl
  refine ⟨?_, ?_, ?_, ?_⟩
  · rw [hval1]
    simp only [Option.getD_some]
    refine List.mem_map.mpr ⟨processRegElement PolicyNode.name StringTable e, ?_, rfl⟩
    exact List.mem_map.mpr ⟨e, hmem, rfl⟩
  · rw [hre]
  · rw [hre]
  · rcases hwarn with h1 | ⟨w, h2⟩
    · rw [h1]
      exact hmemflat
    · rw [h2]
      exact List.mem_append.mpr (Or.inl hmemflat)

/-- C7 (witness): the amended theorem applied to the concrete policy
node with an elements child of kind "foo". -/
theorem c7_witness :
    (processRegElement "FooPol" [] cexFooElement).1 ∈
      ((ProcessRegistryInfo cexFooNode []).1.elements).getD [] ∧
    (processRegElement "FooPol" [] cexFooElement).1.type = "Unknown" ∧
    (processRegElement "FooPol" [] cexFooElement).1.id = "E1" ∧
    unsupportedElementWarning "foo" "FooPol" ∈ (ProcessRegistryInfo cexFooNode []).2 :=
  c7_unrecognized_kind_logged_not_skipped cexFooNode [] [cexFooElement] cexFooElement
    (by decide) (by decide) (by decide)

end AdmxGen
